import Mathlib

/-!
Verification of the papertrail document-processing pipeline.

Shallow embedding of the core of the repository:
  * `DocumentInfo`, `ProcessingResult` (src/papertrail/domain/models.py)
  * `sanitize_filename` and the archive collision namer
    (src/papertrail/adapters/storage/filesystem.py)
  * `ProcessingService.process` / `_quarantine_on_error`
    (src/document_inbox/domain/services.py), modelled as a pure function
    over an environment describing the behaviour of the four capability
    ports plus the relevant filesystem state, and returning the result
    together with a trace of capability invocations
  * `in_date_range` (src/papertrail/__main__.py)
  * `run_cleanup` (src/document_inbox/cleanup.py)
-/

namespace Papertrail

/-- A filesystem path, as far as the pipeline observes it: parent
directory components, the stem, and the extension (with its leading dot,
as in Python `pathlib.Path.suffix`). -/
structure PPath where
  parent : List String
  stem : String
  suffix : String
deriving DecidableEq

/-- `Path.with_suffix`: replace the extension. -/
def PPath.withSuffix (p : PPath) (s : String) : PPath :=
  { p with suffix := s }

/-- `path.suffix.lower()` (ASCII case fold, which covers extensions). -/
def PPath.suffixLower (p : PPath) : String :=
  String.mk (p.suffix.data.map Char.toLower)

/-- A calendar date as used by `DocumentInfo.date` and the archive namer. -/
structure DateD where
  year : Nat
  month : Nat
  day : Nat
deriving DecidableEq

/-- Extracted document metadata (`DocumentInfo` in domain/models.py). -/
structure DocumentInfo where
  title : String
  subject : String
  issuer : String
  summary : String
  date : Option DateD
  steuerrelevant : Bool := false
deriving DecidableEq

/-- Result of document processing (`ProcessingResult` in domain/models.py). -/
structure ProcessingResult where
  source_path : PPath
  document_info : Option DocumentInfo := none
  output_path : Option PPath := none
  sidecar_path : Option PPath := none
  text_length : Nat := 0
  errors : List String := []
deriving DecidableEq

/-- `ProcessingResult.success`:
`len(self.errors) == 0 and self.document_info is not None`. -/
def ProcessingResult.success (r : ProcessingResult) : Bool :=
  r.errors.length == 0 && r.document_info.isSome

/-- A sample path used to instantiate claims on concrete data. -/
def demoPath : PPath := ⟨[], "doc", ".pdf"⟩

/-- A sample metadata record used to instantiate claims on concrete data. -/
def demoInfo : DocumentInfo :=
  { title := "Invoice", subject := "subj", issuer := "ACME"
    summary := "sum", date := some ⟨2024, 3, 14⟩ }

/-- C1: for every `ProcessingResult`, `success` is `true` exactly when the
errors list is empty and a `document_info` record is attached; a result
with zero errors but no record is not a success, and a result carrying a
record together with at least one error is not a success. -/
theorem c1_success_iff :
    (∀ r : ProcessingResult,
      r.success = true ↔ (r.errors = [] ∧ r.document_info.isSome = true))
    ∧ ({ source_path := demoPath } : ProcessingResult).success = false
    ∧ ({ source_path := demoPath, document_info := some demoInfo,
         errors := ["boom"] } : ProcessingResult).success = false := by
  refine ⟨fun r => ?_, rfl, rfl⟩
  simp [ProcessingResult.success, List.length_eq_zero]

/-! ### `sanitize_filename` (adapters/storage/filesystem.py)

The Python function, step by step:
```
name = name.replace("\x00", "")
name = name.replace("..", "_")
name = re.sub(r'[<>:"/\\|?*]', "_", name)
name = re.sub(r"[_\s]+", " ", name)
name = name.strip(". ")
if len(name) > max_length:
    name = name[:max_length].rsplit(" ", 1)[0]
return name or "Untitled"
```
-/

/-- The characters removed by `re.sub(r'[<>:"/\\|?*]', "_", name)`. -/
def isBadChar (c : Char) : Bool :=
  c = '<' || c = '>' || c = ':' || c = '"' || c = '/' || c = '\\' ||
    c = '|' || c = '?' || c = '*'

/-- The character class `[_\s]` of the collapsing step (underscore plus
whitespace; the ASCII range of the regex class). -/
def isCollapseChar (c : Char) : Bool :=
  c = '_' || c = ' ' || c = '\t' || c = '\n' || c = '\r' ||
    c = '\x0b' || c = '\x0c'

/-- The characters stripped from both ends by `name.strip(". ")`. -/
def isStripChar (c : Char) : Bool :=
  c = '.' || c = ' '

/-- `name.replace("..", "_")`: replace non-overlapping occurrences of
`".."`, scanning left to right. -/
def replaceDotDot : List Char → List Char
  | [] => []
  | [c] => [c]
  | c :: d :: rest =>
    if c = '.' ∧ d = '.' then '_' :: replaceDotDot rest
    else c :: replaceDotDot (d :: rest)

/-- Helper for the collapsing step: `inRun` records whether the previous
character belonged to a `[_\s]` run that has already emitted its space. -/
def collapseRunsAux : Bool → List Char → List Char
  | _, [] => []
  | inRun, c :: rest =>
    if isCollapseChar c then
      if inRun then collapseRunsAux true rest
      else ' ' :: collapseRunsAux true rest
    else c :: collapseRunsAux false rest

/-- `re.sub(r"[_\s]+", " ", name)`: collapse every run of underscores and
whitespace into a single space. -/
def collapseRuns (l : List Char) : List Char :=
  collapseRunsAux false l

/-- `name.strip(". ")`: drop leading and trailing dots and spaces. -/
def stripDotsSpaces (l : List Char) : List Char :=
  ((l.dropWhile isStripChar).reverse.dropWhile isStripChar).reverse

/-- `name.rsplit(" ", 1)[0]`: everything before the last space, or the
whole string when it has no space. -/
def dropAfterLastSpace (l : List Char) : List Char :=
  if ' ' ∈ l then (((l.reverse.dropWhile fun c => ¬ c = ' ').drop 1)).reverse
  else l

/-- The truncation step: `if len(name) > max_length: name =
name[:max_length].rsplit(" ", 1)[0]`. -/
def truncateName (maxLength : Nat) (l : List Char) : List Char :=
  if maxLength < l.length then dropAfterLastSpace (l.take maxLength) else l

/-- `name.replace("\x00", "")`: drop the null bytes. -/
def removeNulls (l : List Char) : List Char :=
  l.filter fun c => !(c == '\x00')

/-- One character of `re.sub(r'[<>:"/\\|?*]', "_", name)`. -/
def badMap (c : Char) : Char :=
  if isBadChar c then '_' else c

/-- All character-level steps of `sanitize_filename`, in source order. -/
def sanitizeChars (maxLength : Nat) (l : List Char) : List Char :=
  truncateName maxLength
    (stripDotsSpaces
      (collapseRuns
        ((replaceDotDot (removeNulls l)).map badMap)))

/-- `sanitize_filename` (adapters/storage/filesystem.py): the character
pipeline followed by the `name or "Untitled"` fallback. -/
def sanitize_filename (name : String) (maxLength : Nat := 180) : String :=
  let r := sanitizeChars maxLength name.data
  if r = [] then "Untitled" else String.mk r

/-! ### `in_date_range` (papertrail/__main__.py)

```
for i, part in enumerate(parts):
    if len(part) == 4 and part.isdigit() and i + 1 < len(parts):
        year = part
        month = parts[i + 1]
        if len(month) == 2 and month.isdigit():
            date_str = f"{year}-{month}-01"
            return start <= date_str <= end
return False
```
It receives `path.parts` and compares ISO date strings lexicographically,
exactly as Python compares `str`. -/

/-- Lexicographic comparison of character lists by code point, the order
Python uses to compare `str` values with `<=`. -/
def charListLe : List Char → List Char → Bool
  | [], _ => true
  | _ :: _, [] => false
  | a :: as_, b :: bs => if a = b then charListLe as_ bs else decide (a < b)

/-- Python string `<=`, by code points. -/
def strLe (a b : String) : Bool :=
  charListLe a.data b.data

/-- `in_date_range`, over the component list `path.parts`. -/
def in_date_range : List String → String → String → Bool
  | [], _, _ => false
  | [_], _, _ => false
  | p :: q :: rest, start, stop =>
    if p.length == 4 && p.data.all Char.isDigit then
      if q.length == 2 && q.data.all Char.isDigit then
        let dateStr := p ++ "-" ++ q ++ "-01"
        strLe start dateStr && strLe dateStr stop
      else in_date_range (q :: rest) start stop
    else in_date_range (q :: rest) start stop

/-- C9: the reprocessing date-range filter works at month granularity
while respecting day-precision bounds: a file under `2024/03/` is
included by `[2024-03-01, 2024-03-31]`, excluded by February-only and
April-only ranges, and excluded by `[2024-03-15, 2024-03-31]` because
the folder is treated as the 1st of the month, which precedes that
range start. -/
theorem c9_date_range_filter :
    in_date_range ["archive", "2024", "03", "scan.pdf"]
      "2024-03-01" "2024-03-31" = true
    ∧ in_date_range ["archive", "2024", "03", "scan.pdf"]
      "2024-02-01" "2024-02-29" = false
    ∧ in_date_range ["archive", "2024", "03", "scan.pdf"]
      "2024-04-01" "2024-04-30" = false
    ∧ in_date_range ["archive", "2024", "03", "scan.pdf"]
      "2024-03-15" "2024-03-31" = false := by
  refine ⟨by decide, by decide, by decide, by decide⟩

/-! ### `run_cleanup` (document_inbox/cleanup.py)

```
cutoff = datetime.now() - timedelta(days=retention_days)
if not trash.exists():
    return 0
removed = 0
for path in trash.iterdir():
    if not path.is_file():
        continue
    mtime = datetime.fromtimestamp(path.stat().st_mtime)
    if mtime < cutoff:
        path.unlink()
        removed += 1
return removed
```
The trash directory is modelled as an optional list of direct entries
(`none` = directory missing); a directory entry keeps its children, since
`iterdir` never descends. Timestamps are seconds, so the cutoff is
`now - retention_days * 86400`. -/

/-- A direct entry of the trash directory. -/
inductive FsNode where
  | file (name : String) (mtime : Int)
  | dir (name : String) (children : List FsNode)

/-- Whether an entry is a regular file older than the cutoff, i.e. would
be unlinked by the sweep. -/
def FsNode.isOldFile (cutoff : Int) : FsNode → Bool
  | .file _ m => decide (m < cutoff)
  | .dir _ _ => false

/-- One iteration of the sweep loop: skip non-files, unlink old files,
keep the rest. -/
def cleanupStep (cutoff : Int) (acc : List FsNode × Nat) :
    FsNode → List FsNode × Nat
  | .file nm m =>
    if m < cutoff then (acc.1, acc.2 + 1)
    else (acc.1 ++ [FsNode.file nm m], acc.2)
  | .dir nm cs => (acc.1 ++ [FsNode.dir nm cs], acc.2)

/-- `run_cleanup`: sweep the direct entries of the trash directory,
returning the surviving entries and the number of files removed. -/
def run_cleanup (trash : Option (List FsNode)) (now retention_days : Int) :
    Option (List FsNode) × Nat :=
  match trash with
  | none => (none, 0)
  | some entries =>
    let cutoff := now - retention_days * 86400
    let swept := entries.foldl (cleanupStep cutoff) ([], 0)
    (some swept.1, swept.2)

theorem run_cleanup_foldl (cutoff : Int) :
    ∀ (l : List FsNode) (acc : List FsNode × Nat),
      l.foldl (cleanupStep cutoff) acc =
        (acc.1 ++ l.filter (fun e => !(e.isOldFile cutoff)),
         acc.2 + (l.filter (fun e => e.isOldFile cutoff)).length) := by
  intro l
  induction l with
  | nil => intro acc; simp
  | cons e rest ih =>
    intro acc
    rw [List.foldl_cons, ih]
    cases e with
    | file nm m =>
      by_cases hm : m < cutoff
      · simp [cleanupStep, hm, FsNode.isOldFile]
        try omega
      · simp [cleanupStep, hm, FsNode.isOldFile]
        try omega
    | dir nm cs =>
      simp [cleanupStep, FsNode.isOldFile]
      try omega

/-- C10: the retention sweep removes exactly the regular files directly
inside the trash directory whose modification time precedes
`now - retention_days` (in seconds), keeps every other direct entry —
in particular newer files, and directories together with their entire
contents — and returns the number of files removed; a missing trash
directory returns 0. -/
theorem c10_cleanup (now retention_days : Int) (entries : List FsNode) :
    run_cleanup none now retention_days = (none, 0)
    ∧ (run_cleanup (some entries) now retention_days).2 =
        (entries.filter
          (fun e => e.isOldFile (now - retention_days * 86400))).length
    ∧ (run_cleanup (some entries) now retention_days).1 =
        some (entries.filter
          (fun e => !(e.isOldFile (now - retention_days * 86400))))
    ∧ (∀ nm cs, FsNode.dir nm cs ∈ entries →
        ∀ kept, (run_cleanup (some entries) now retention_days).1 = some kept →
          FsNode.dir nm cs ∈ kept)
    ∧ (∀ nm m, FsNode.file nm m ∈ entries →
        ¬ (m < now - retention_days * 86400) →
        ∀ kept, (run_cleanup (some entries) now retention_days).1 = some kept →
          FsNode.file nm m ∈ kept) := by
  have hfold := run_cleanup_foldl (now - retention_days * 86400) entries ([], 0)
  refine ⟨rfl, ?_, ?_, ?_, ?_⟩
  · simp [run_cleanup, hfold]
  · simp [run_cleanup, hfold]
  · intro nm cs hmem kept hkept
    simp [run_cleanup, hfold] at hkept
    subst hkept
    simp [List.mem_filter, FsNode.isOldFile]
    exact hmem
  · intro nm m hmem hnew kept hkept
    simp [run_cleanup, hfold] at hkept
    subst hkept
    simp [List.mem_filter, FsNode.isOldFile, hnew]
    exact hmem

/-- Concrete instantiation of the retention-sweep theorem: one old file is
removed, while a subdirectory (with its contents) and a newer file
survive. -/
theorem c10_cleanup_witness :
    (run_cleanup (some [FsNode.file "old" 0,
        FsNode.dir "d" [FsNode.file "n" 0],
        FsNode.file "new" 999999999]) 200000 1).2 = 1
    ∧ FsNode.dir "d" [FsNode.file "n" 0] ∈
        [FsNode.dir "d" [FsNode.file "n" 0], FsNode.file "new" 999999999]
    ∧ FsNode.file "new" 999999999 ∈
        [FsNode.dir "d" [FsNode.file "n" 0], FsNode.file "new" 999999999] := by
  have h := c10_cleanup 200000 1
    [FsNode.file "old" 0, FsNode.dir "d" [FsNode.file "n" 0],
     FsNode.file "new" 999999999]
  refine ⟨?_, ?_, ?_⟩
  · rw [h.2.1]; rfl
  · exact h.2.2.2.1 "d" [FsNode.file "n" 0] (by simp)
      [FsNode.dir "d" [FsNode.file "n" 0], FsNode.file "new" 999999999]
      (by rw [h.2.2.1]; rfl)
  · exact h.2.2.2.2 "new" 999999999 (by simp) (by norm_num)
      [FsNode.dir "d" [FsNode.file "n" 0], FsNode.file "new" 999999999]
      (by rw [h.2.2.1]; rfl)

/-! ### `ProcessingService.process` (document_inbox/domain/services.py)

The pipeline is modelled as a pure function over an `Env` describing the
behaviour of the four capability ports during one `process` call:
each port call either returns a value (`Except.ok`) or raises an
exception carrying its stringified message (`Except.error`).  The
relevant filesystem facts are the `.exists()` answers, seeded by
`Env.exists0` and updated when a successful `shutil.move` (archive store
or quarantine) takes a file away.  `process` returns the Python result —
`Except.error e` meaning an exception `e` escaped to the caller — plus a
trace of the capability invocations and quarantine-gate observations. -/

/-- Whitespace as stripped by Python `str.strip()` (the ASCII range):
`not text.strip()` holds exactly when every character satisfies this. -/
def isPyWhitespace (c : Char) : Bool :=
  c = ' ' || c = '\t' || c = '\n' || c = '\r' || c = '\x0b' || c = '\x0c'

/-- Trace events: one per capability invocation; `quarantineCheck`
records what `_quarantine_on_error` observed (`not result.success`,
`path.exists()`). -/
inductive Event where
  | ocrProcess
  | extractText
  | analyze
  | updatePdf
  | writeSidecar
  | store
  | storeSidecar (sidecar : PPath)
  | quarantineCheck (notSuccess : Bool) (srcExists : Bool)
  | quarantine (file : PPath)
deriving DecidableEq

/-- The behaviour of the capability ports and of the filesystem during a
single `process(path, keep)` call. -/
structure Env where
  ocrProcess : Except String Unit
  extractText : Except String String
  analyze : Except String DocumentInfo
  updatePdf : Except String Unit
  writeSidecar : Except String PPath
  store : Except String PPath
  storeSidecarYaml : Except String PPath
  storeSidecarTxt : Except String PPath
  quarantineRes : PPath → Except String PPath
  quarantineDir : Option PPath
  exists0 : PPath → Bool

/-- A successful `shutil.move` takes `f` away from its old location. -/
def setGone (fs : PPath → Bool) (f : PPath) : PPath → Bool :=
  fun q => if q = f then false else fs q

/-- One iteration of the sidecar loop inside `_quarantine_on_error`:
`if sidecar.exists(): self.storage.quarantine(sidecar, ...)`. -/
def quarantineFile (env : Env) (f : PPath) (fs : PPath → Bool) :
    ((PPath → Bool) × Option String) × List Event :=
  if fs f then
    match env.quarantineRes f with
    | .error e => ((fs, some e), [Event.quarantine f])
    | .ok _ => ((setGone fs f, none), [Event.quarantine f])
  else ((fs, none), [])

/-- The `for suffix in [".txt", ".yaml"]` loop of `_quarantine_on_error`. -/
def quarantineSidecars (env : Env) (path : PPath) (fs : PPath → Bool) :
    ((PPath → Bool) × Option String) × List Event :=
  let t := quarantineFile env (path.withSuffix ".txt") fs
  match t.1.2 with
  | some e => ((t.1.1, some e), t.2)
  | none =>
    let y := quarantineFile env (path.withSuffix ".yaml") t.1.1
    ((y.1.1, y.1.2), t.2 ++ y.2)

/-- `_quarantine_on_error(path, result)`:
```
if self.quarantine_dir and not result.success and path.exists():
    result.output_path = self.storage.quarantine(path, self.quarantine_dir)
    for suffix in [".txt", ".yaml"]:
        sidecar = path.with_suffix(suffix)
        if sidecar.exists():
            self.storage.quarantine(sidecar, self.quarantine_dir)
```
The `Option String` is the exception escaping this routine, if any. -/
def quarantineOnError (env : Env) (path : PPath) (r : ProcessingResult)
    (fs : PPath → Bool) :
    (ProcessingResult × (PPath → Bool) × Option String) × List Event :=
  let notSuccess := !r.success
  let srcExists := fs path
  let ev0 := [Event.quarantineCheck notSuccess srcExists]
  if env.quarantineDir.isSome && notSuccess && srcExists then
    match env.quarantineRes path with
    | .error e => ((r, fs, some e), ev0 ++ [Event.quarantine path])
    | .ok dest =>
      let s := quarantineSidecars env path (setGone fs path)
      (({ r with output_path := some dest }, s.1.1, s.1.2),
        ev0 ++ [Event.quarantine path] ++ s.2)
  else ((r, fs, none), ev0)

/-- The body of the `try:` block of `process` (steps 2–7).  The
`Option String` is the exception reaching the `except` handler, if any;
the result and filesystem carry whatever mutations happened before it
was raised. -/
def tryBody (env : Env) (path : PPath) (keep : Bool) (r : ProcessingResult)
    (fs : PPath → Bool) :
    (ProcessingResult × (PPath → Bool) × Option String) × List Event :=
  match env.ocrProcess with
  | .error e => ((r, fs, some e), [Event.ocrProcess])
  | .ok _ =>
  match env.extractText with
  | .error e => ((r, fs, some e), [Event.ocrProcess, Event.extractText])
  | .ok text =>
    let r1 := { r with text_length := text.length }
    if text.data.all isPyWhitespace then
      let r2 := { r1 with errors := r1.errors ++ ["No text extracted from document"] }
      let q := quarantineOnError env path r2 fs
      (q.1, [Event.ocrProcess, Event.extractText] ++ q.2)
    else
    match env.analyze with
    | .error e => ((r1, fs, some e),
        [Event.ocrProcess, Event.extractText, Event.analyze])
    | .ok info =>
      let r2 := { r1 with document_info := some info }
      match env.updatePdf with
      | .error e => ((r2, fs, some e),
          [Event.ocrProcess, Event.extractText, Event.analyze, Event.updatePdf])
      | .ok _ =>
      match env.writeSidecar with
      | .error e => ((r2, fs, some e),
          [Event.ocrProcess, Event.extractText, Event.analyze, Event.updatePdf,
           Event.writeSidecar])
      | .ok yamlSidecar =>
        let txtSidecar := path.withSuffix ".txt"
        if keep then
          let r3 := { r2 with output_path := some path,
                              sidecar_path := some yamlSidecar }
          ((r3, fs, none),
            [Event.ocrProcess, Event.extractText, Event.analyze,
             Event.updatePdf, Event.writeSidecar])
        else
          match env.store with
          | .error e => ((r2, fs, some e),
              [Event.ocrProcess, Event.extractText, Event.analyze,
               Event.updatePdf, Event.writeSidecar, Event.store])
          | .ok out =>
            let r3 := { r2 with output_path := some out }
            let fs1 := setGone fs path
            match env.storeSidecarYaml with
            | .error e => ((r3, fs1, some e),
                [Event.ocrProcess, Event.extractText, Event.analyze,
                 Event.updatePdf, Event.writeSidecar, Event.store,
                 Event.storeSidecar yamlSidecar])
            | .ok sc =>
              let r4 := { r3 with sidecar_path := some sc }
              let fs2 := setGone fs1 yamlSidecar
              if fs2 txtSidecar then
                match env.storeSidecarTxt with
                | .error e => ((r4, fs2, some e),
                    [Event.ocrProcess, Event.extractText, Event.analyze,
                     Event.updatePdf, Event.writeSidecar, Event.store,
                     Event.storeSidecar yamlSidecar,
                     Event.storeSidecar txtSidecar])
                | .ok _ => ((r4, setGone fs2 txtSidecar, none),
                    [Event.ocrProcess, Event.extractText, Event.analyze,
                     Event.updatePdf, Event.writeSidecar, Event.store,
                     Event.storeSidecar yamlSidecar,
                     Event.storeSidecar txtSidecar])
              else ((r4, fs2, none),
                  [Event.ocrProcess, Event.extractText, Event.analyze,
                   Event.updatePdf, Event.writeSidecar, Event.store,
                   Event.storeSidecar yamlSidecar])

/-- The fresh result created at pipeline entry. -/
def initResult (path : PPath) : ProcessingResult :=
  { source_path := path }

/-- The result after the step-1 rejection of a non-PDF input. -/
def rejectResult (path : PPath) : ProcessingResult :=
  { source_path := path, errors := ["Unsupported file type: " ++ path.suffix] }

/-- The state after the rejection branch runs `_quarantine_on_error`. -/
def qReject (env : Env) (path : PPath) :
    (ProcessingResult × (PPath → Bool) × Option String) × List Event :=
  quarantineOnError env path (rejectResult path) env.exists0

/-- The state after the `try` block of steps 2–7. -/
def tAfter (env : Env) (path : PPath) (keep : Bool) :
    (ProcessingResult × (PPath → Bool) × Option String) × List Event :=
  tryBody env path keep (initResult path) env.exists0

/-- The state after the `except` handler appends the caught exception `e`
and runs `_quarantine_on_error`. -/
def qAfter (env : Env) (path : PPath) (keep : Bool) (e : String) :
    (ProcessingResult × (PPath → Bool) × Option String) × List Event :=
  quarantineOnError env path
    { (tAfter env path keep).1.1 with
      errors := (tAfter env path keep).1.1.errors ++ [e] }
    (tAfter env path keep).1.2.1

/-- `ProcessingService.process(path, keep)`.  `Except.error e` means the
exception `e` escaped `process` to its caller. -/
def process (env : Env) (path : PPath) (keep : Bool) :
    Except String ProcessingResult × List Event :=
  if path.suffixLower ≠ ".pdf" then
    match (qReject env path).1.2.2 with
    | some e => (.error e, (qReject env path).2)
    | none => (.ok (qReject env path).1.1, (qReject env path).2)
  else
    match (tAfter env path keep).1.2.2 with
    | none => (.ok (tAfter env path keep).1.1, (tAfter env path keep).2)
    | some e =>
      match (qAfter env path keep e).1.2.2 with
      | some e2 =>
        (.error e2, (tAfter env path keep).2 ++ (qAfter env path keep e).2)
      | none =>
        (.ok (qAfter env path keep e).1.1,
         (tAfter env path keep).2 ++ (qAfter env path keep e).2)

theorem quarantineFile_err_none {env : Env} {f : PPath} {fs : PPath → Bool}
    (h : ∃ d, env.quarantineRes f = Except.ok d) :
    (quarantineFile env f fs).1.2 = none := by
  obtain ⟨d, hd⟩ := h
  unfold quarantineFile
  split
  · rw [hd]
  · rfl

theorem quarantineFile_shape {env : Env} {f : PPath} {fs : PPath → Bool} :
    ∀ e ∈ (quarantineFile env f fs).2, e = Event.quarantine f := by
  intro e he
  unfold quarantineFile at he
  split at he
  · rcases h : env.quarantineRes f with e' | d <;> rw [h] at he <;>
      simpa using he
  · simp at he

theorem quarantineSidecars_err_none {env : Env} {path : PPath}
    {fs : PPath → Bool}
    (hq : ∀ f, ∃ d, env.quarantineRes f = Except.ok d) :
    (quarantineSidecars env path fs).1.2 = none := by
  simp only [quarantineSidecars]
  rw [quarantineFile_err_none (hq _)]
  exact quarantineFile_err_none (hq _)

theorem quarantineSidecars_shape {env : Env} {path : PPath}
    {fs : PPath → Bool} :
    ∀ e ∈ (quarantineSidecars env path fs).2, ∃ f, e = Event.quarantine f := by
  intro e he
  simp only [quarantineSidecars] at he
  rcases h1 : (quarantineFile env (path.withSuffix ".txt") fs).1.2 with _ | e1
  · rw [h1] at he
    simp only [List.mem_append] at he
    rcases he with he | he
    · exact ⟨_, quarantineFile_shape e he⟩
    · exact ⟨_, quarantineFile_shape e he⟩
  · rw [h1] at he
    exact ⟨_, quarantineFile_shape e he⟩

/-- The quarantine gate of `_quarantine_on_error`, as the code evaluates
it. -/
def quarantineGate (env : Env) (path : PPath) (r : ProcessingResult)
    (fs : PPath → Bool) : Bool :=
  env.quarantineDir.isSome && !r.success && fs path

theorem qoe_gate_false {env : Env} {path : PPath} {r : ProcessingResult}
    {fs : PPath → Bool} (h : quarantineGate env path r fs = false) :
    quarantineOnError env path r fs =
      ((r, fs, none), [Event.quarantineCheck (!r.success) (fs path)]) := by
  rw [quarantineGate] at h
  simp only [quarantineOnError, h, Bool.false_eq_true, if_false]

theorem qoe_gate_true_error {env : Env} {path : PPath} {r : ProcessingResult}
    {fs : PPath → Bool} {e : String}
    (h : quarantineGate env path r fs = true)
    (he : env.quarantineRes path = Except.error e) :
    quarantineOnError env path r fs =
      ((r, fs, some e),
       [Event.quarantineCheck true true, Event.quarantine path]) := by
  rw [quarantineGate, Bool.and_eq_true, Bool.and_eq_true] at h
  obtain ⟨⟨h1, h2⟩, h3⟩ := h
  simp only [quarantineOnError, h1, h2, h3, Bool.and_self, if_true, he]
  rfl

theorem qoe_gate_true_ok {env : Env} {path : PPath} {r : ProcessingResult}
    {fs : PPath → Bool} {d : PPath}
    (h : quarantineGate env path r fs = true)
    (hd : env.quarantineRes path = Except.ok d) :
    quarantineOnError env path r fs =
      (({ r with output_path := some d },
        (quarantineSidecars env path (setGone fs path)).1.1,
        (quarantineSidecars env path (setGone fs path)).1.2),
       [Event.quarantineCheck true true, Event.quarantine path] ++
         (quarantineSidecars env path (setGone fs path)).2) := by
  rw [quarantineGate, Bool.and_eq_true, Bool.and_eq_true] at h
  obtain ⟨⟨h1, h2⟩, h3⟩ := h
  simp only [quarantineOnError, h1, h2, h3, Bool.and_self, if_true, hd]
  rfl

theorem qoe_err_none {env : Env} {path : PPath} {r : ProcessingResult}
    {fs : PPath → Bool}
    (hq : ∀ f, ∃ d, env.quarantineRes f = Except.ok d) :
    (quarantineOnError env path r fs).1.2.2 = none := by
  rcases hg : quarantineGate env path r fs with _ | _
  · rw [qoe_gate_false hg]
  · obtain ⟨d, hd⟩ := hq path
    rw [qoe_gate_true_ok hg hd]
    exact quarantineSidecars_err_none hq

theorem qoe_errors {env : Env} {path : PPath} {r : ProcessingResult}
    {fs : PPath → Bool} :
    (quarantineOnError env path r fs).1.1.errors = r.errors := by
  rcases hg : quarantineGate env path r fs with _ | _
  · rw [qoe_gate_false hg]
  · rcases hd : env.quarantineRes path with e | d
    · rw [qoe_gate_true_error hg hd]
    · rw [qoe_gate_true_ok hg hd]

theorem qoe_check_mem {env : Env} {path : PPath} {r : ProcessingResult}
    {fs : PPath → Bool} :
    ∃ b1 b2, Event.quarantineCheck b1 b2 ∈ (quarantineOnError env path r fs).2 := by
  rcases hg : quarantineGate env path r fs with _ | _
  · rw [qoe_gate_false hg]; exact ⟨!r.success, fs path, by simp⟩
  · rcases hd : env.quarantineRes path with e | d
    · rw [qoe_gate_true_error hg hd]; exact ⟨true, true, by simp⟩
    · rw [qoe_gate_true_ok hg hd]; exact ⟨true, true, by simp⟩

theorem qoe_shape {env : Env} {path : PPath} {r : ProcessingResult}
    {fs : PPath → Bool} :
    ∀ e ∈ (quarantineOnError env path r fs).2,
      (∃ b1 b2, e = Event.quarantineCheck b1 b2) ∨
      (∃ f, e = Event.quarantine f) := by
  intro e he
  rcases hg : quarantineGate env path r fs with _ | _
  · rw [qoe_gate_false hg] at he
    simp at he
    exact Or.inl ⟨_, _, he⟩
  · rcases hd : env.quarantineRes path with e' | d
    · rw [qoe_gate_true_error hg hd] at he
      simp at he
      rcases he with he | he
      · exact Or.inl ⟨_, _, he⟩
      · exact Or.inr ⟨_, he⟩
    · rw [qoe_gate_true_ok hg hd] at he
      simp at he
      rcases he with he | he | he
      · exact Or.inl ⟨_, _, he⟩
      · exact Or.inr ⟨_, he⟩
      · exact Or.inr (quarantineSidecars_shape e he)

theorem qoe_quar_path_iff {env : Env} {path : PPath} {r : ProcessingResult}
    {fs : PPath → Bool} :
    Event.quarantine path ∈ (quarantineOnError env path r fs).2 ↔
      (env.quarantineDir.isSome = true ∧ r.success = false ∧ fs path = true) := by
  rcases hg : quarantineGate env path r fs with _ | _
  · rw [qoe_gate_false hg]
    constructor
    · intro h; simp at h
    · rintro ⟨h1, h2, h3⟩
      rw [quarantineGate, h1, h2, h3] at hg
      simp at hg
  · have hg' := hg
    rw [quarantineGate, Bool.and_eq_true, Bool.and_eq_true] at hg'
    obtain ⟨⟨h1, h2⟩, h3⟩ := hg'
    rw [Bool.not_eq_true'] at h2
    rcases hd : env.quarantineRes path with e' | d
    · rw [qoe_gate_true_error hg hd]
      simp [h1, h2, h3]
    · rw [qoe_gate_true_ok hg hd]
      simp [h1, h2, h3]

theorem qoe_check_tt_iff {env : Env} {path : PPath} {r : ProcessingResult}
    {fs : PPath → Bool} :
    Event.quarantineCheck true true ∈ (quarantineOnError env path r fs).2 ↔
      (r.success = false ∧ fs path = true) := by
  rcases hg : quarantineGate env path r fs with _ | _
  · rw [qoe_gate_false hg]
    simp only [List.mem_singleton, Event.quarantineCheck.injEq]
    constructor
    · rintro ⟨ha, hb⟩
      exact ⟨by rw [← Bool.not_eq_true', ← ha], hb.symm⟩
    · rintro ⟨ha, hb⟩
      exact ⟨by rw [ha]; rfl, hb.symm⟩
  · have hg' := hg
    rw [quarantineGate, Bool.and_eq_true, Bool.and_eq_true] at hg'
    obtain ⟨⟨h1, h2⟩, h3⟩ := hg'
    rw [Bool.not_eq_true'] at h2
    rcases hd : env.quarantineRes path with e' | d
    · rw [qoe_gate_true_error hg hd]
      simp [h2, h3]
    · rw [qoe_gate_true_ok hg hd]
      simp [h2, h3]

theorem qoe_err_some_gate {env : Env} {path : PPath} {r : ProcessingResult}
    {fs : PPath → Bool} {e : String}
    (h : (quarantineOnError env path r fs).1.2.2 = some e) :
    env.quarantineDir.isSome = true ∧ r.success = false ∧ fs path = true := by
  rcases hg : quarantineGate env path r fs with _ | _
  · rw [qoe_gate_false hg] at h; cases h
  · have hg' := hg
    rw [quarantineGate, Bool.and_eq_true, Bool.and_eq_true] at hg'
    obtain ⟨⟨h1, h2⟩, h3⟩ := hg'
    exact ⟨h1, by rwa [Bool.not_eq_true'] at h2, h3⟩

/-- The mutated result at the point where the blank-text error has been
recorded (steps 1–3 ran, extraction returned only whitespace). -/
def blankTextResult (r : ProcessingResult) (text : String) : ProcessingResult :=
  { r with text_length := text.length,
           errors := r.errors ++ ["No text extracted from document"] }

theorem tryBody_split (env : Env) (path : PPath) (keep : Bool)
    (r : ProcessingResult) (fs : PPath → Bool) :
    ((∀ b1 b2, Event.quarantineCheck b1 b2 ∉ (tryBody env path keep r fs).2)
      ∧ (∀ f, Event.quarantine f ∉ (tryBody env path keep r fs).2)
      ∧ (tryBody env path keep r fs).1.1.errors = r.errors
      ∧ (keep = true → Event.store ∉ (tryBody env path keep r fs).2))
    ∨ (∃ text, env.ocrProcess = Except.ok () ∧ env.extractText = Except.ok text
        ∧ text.data.all isPyWhitespace = true
        ∧ tryBody env path keep r fs =
            ((quarantineOnError env path (blankTextResult r text) fs).1,
             [Event.ocrProcess, Event.extractText] ++
               (quarantineOnError env path (blankTextResult r text) fs).2)) := by
  rcases hocr : env.ocrProcess with e | u
  · left; simp [tryBody, hocr]
  · cases u
    rcases hext : env.extractText with e | text
    · left; simp [tryBody, hocr, hext]
    · rcases hws : text.data.all isPyWhitespace with _ | _
      · rcases hana : env.analyze with e | info
        · left; simp [tryBody, hocr, hext, hws, hana]
        · rcases hupd : env.updatePdf with e | u'
          · left; simp [tryBody, hocr, hext, hws, hana, hupd]
          · cases u'
            rcases hwr : env.writeSidecar with e | y
            · left; simp [tryBody, hocr, hext, hws, hana, hupd, hwr]
            · cases keep
              · rcases hst : env.store with e | out
                · left; simp [tryBody, hocr, hext, hws, hana, hupd, hwr, hst]
                · rcases hsy : env.storeSidecarYaml with e | sc
                  · left
                    simp [tryBody, hocr, hext, hws, hana, hupd, hwr, hst, hsy]
                  · rcases hft : setGone (setGone fs path) y (path.withSuffix ".txt")
                      with _ | _
                    · left
                      simp [tryBody, hocr, hext, hws, hana, hupd, hwr, hst,
                        hsy, hft]
                    · rcases hstx : env.storeSidecarTxt with e | sc2
                      · left
                        simp [tryBody, hocr, hext, hws, hana, hupd, hwr, hst,
                          hsy, hft, hstx]
                      · left
                        simp [tryBody, hocr, hext, hws, hana, hupd, hwr, hst,
                          hsy, hft, hstx]
              · left; simp [tryBody, hocr, hext, hws, hana, hupd, hwr]
      · right
        refine ⟨text, rfl, rfl, hws, ?_⟩
        simp [tryBody, hocr, hext, hws, blankTextResult]

theorem tryBody_keep_fields (env : Env) (path : PPath)
    (r : ProcessingResult) (fs : PPath → Bool)
    (herr : (tryBody env path true r fs).1.2.2 = none)
    (herrs : (tryBody env path true r fs).1.1.errors = r.errors)
    {y : PPath} (hy : env.writeSidecar = Except.ok y) :
    (tryBody env path true r fs).1.1.output_path = some path ∧
    (tryBody env path true r fs).1.1.sidecar_path = some y := by
  rcases hocr : env.ocrProcess with e | u
  · simp [tryBody, hocr] at herr
  · cases u
    rcases hext : env.extractText with e | text
    · simp [tryBody, hocr, hext] at herr
    · rcases hws : text.data.all isPyWhitespace with _ | _
      · rcases hana : env.analyze with e | info
        · simp [tryBody, hocr, hext, hws, hana] at herr
        · rcases hupd : env.updatePdf with e | u'
          · simp [tryBody, hocr, hext, hws, hana, hupd] at herr
          · cases u'
            rcases hwr : env.writeSidecar with e | y'
            · simp [tryBody, hocr, hext, hws, hana, hupd, hwr] at herr
            · rw [hwr] at hy
              injection hy with hy'
              subst hy'
              constructor <;>
                simp [tryBody, hocr, hext, hws, hana, hupd, hwr]
      · exfalso
        simp only [tryBody, hocr, hext, hws, if_true] at herrs
        rw [qoe_errors] at herrs
        have hlen := congrArg List.length herrs
        simp at hlen

theorem quarantineFile_ok_eq {env : Env} {f : PPath} {fs : PPath → Bool}
    (hq : ∃ d, env.quarantineRes f = Except.ok d) :
    quarantineFile env f fs =
      ((if fs f = true then setGone fs f else fs, none),
       if fs f = true then [Event.quarantine f] else []) := by
  obtain ⟨d, hd⟩ := hq
  rcases hff : fs f with _ | _
  · simp [quarantineFile, hff]
  · simp [quarantineFile, hff, hd]

theorem quarantineSidecars_ok_eq {env : Env} {path : PPath}
    {fs : PPath → Bool}
    (hq : ∀ f, ∃ d, env.quarantineRes f = Except.ok d) :
    quarantineSidecars env path fs =
      ((if (if fs (path.withSuffix ".txt") = true
            then setGone fs (path.withSuffix ".txt") else fs)
              (path.withSuffix ".yaml") = true
        then setGone
          (if fs (path.withSuffix ".txt") = true
           then setGone fs (path.withSuffix ".txt") else fs)
          (path.withSuffix ".yaml")
        else (if fs (path.withSuffix ".txt") = true
              then setGone fs (path.withSuffix ".txt") else fs), none),
       (if fs (path.withSuffix ".txt") = true
        then [Event.quarantine (path.withSuffix ".txt")] else [])
       ++ (if (if fs (path.withSuffix ".txt") = true
               then setGone fs (path.withSuffix ".txt") else fs)
                 (path.withSuffix ".yaml") = true
           then [Event.quarantine (path.withSuffix ".yaml")] else [])) := by
  simp only [quarantineSidecars, quarantineFile_ok_eq (hq (path.withSuffix ".txt")),
    quarantineFile_ok_eq (hq (path.withSuffix ".yaml"))]

/-! ### Sample environments and concrete runs -/

/-- The yaml sidecar as `metadata.write_sidecar` returns it. -/
def yamlP : PPath := ⟨[], "doc", ".yaml"⟩

/-- The archived document location returned by `storage.store`. -/
def outP : PPath := ⟨["2024", "03"], "Invoice - 2024-03-14", ".pdf"⟩

/-- The archived sidecar location returned by `storage.store_sidecar`. -/
def scP : PPath := ⟨["2024", "03"], "Invoice - 2024-03-14", ".yaml"⟩

/-- The quarantine destination returned by `storage.quarantine`. -/
def qP : PPath := ⟨["q"], "doc", ".pdf"⟩

/-- A fully cooperative environment: every capability succeeds and every
file exists. -/
def envAllOk : Env :=
  { ocrProcess := .ok ()
    extractText := .ok "hello"
    analyze := .ok demoInfo
    updatePdf := .ok ()
    writeSidecar := .ok yamlP
    store := .ok outP
    storeSidecarYaml := .ok scP
    storeSidecarTxt := .ok scP
    quarantineRes := fun _ => .ok qP
    quarantineDir := some ⟨["q"], "", ""⟩
    exists0 := fun _ => true }

/-- Analysis raises, and the quarantine move itself also raises. -/
def envQuarantineRaises : Env :=
  { envAllOk with analyze := .error "analysis failed",
                  quarantineRes := fun _ => .error "quarantine move failed" }

/-- Analysis raises, everything else works. -/
def envAnalyzeFails : Env :=
  { envAllOk with analyze := .error "analysis failed" }

/-- OCR raises, and no quarantine directory is configured (exactly how
the CLI wires `process --keep`). -/
def envKeepFails : Env :=
  { envAllOk with ocrProcess := .error "ocr failed", quarantineDir := none }

/-- OCR extracts only whitespace. -/
def envEmptyText : Env := { envAllOk with extractText := .ok "   " }

/-- A non-PDF input path. -/
def pDocx : PPath := ⟨[], "doc", ".docx"⟩

/-- C2 counterexample: when the LLM call raises and the storage
quarantine move also raises, the quarantine exception escapes `process`
to its caller — `process` does not return a `ProcessingResult`, refuting
the claim that no exception ever propagates. -/
theorem c2_counterexample :
    (process envQuarantineRaises demoPath false).1 =
      Except.error "quarantine move failed" := rfl

/-- C2 (amended): provided the storage quarantine operation itself never
raises, `process` always returns a `ProcessingResult` — no exception
reaches the caller — and any exception raised inside the `try` block of
steps 2–7 is caught, stringified, appended to the result's error list,
and triggers the quarantine routine.  (As literally stated the claim
fails, because an exception raised by the quarantine move itself
propagates out of the rejection branch and out of the `except` handler;
see `c2_counterexample`.) -/
theorem c2_error_boundary (env : Env) (path : PPath) (keep : Bool)
    (hq : ∀ f, ∃ d, env.quarantineRes f = Except.ok d) :
    (∃ r, (process env path keep).1 = Except.ok r)
    ∧ (∀ e, path.suffixLower = ".pdf" →
        (tAfter env path keep).1.2.2 = some e →
        ∃ r, (process env path keep).1 = Except.ok r ∧ e ∈ r.errors
          ∧ ∃ b1 b2, Event.quarantineCheck b1 b2 ∈ (process env path keep).2) := by
  constructor
  · by_cases hp : path.suffixLower = ".pdf"
    · rcases ht : (tAfter env path keep).1.2.2 with _ | e
      · exact ⟨(tAfter env path keep).1.1, by simp [process, hp, ht]⟩
      · have hqe : (qAfter env path keep e).1.2.2 = none := qoe_err_none hq
        exact ⟨(qAfter env path keep e).1.1, by simp [process, hp, ht, hqe]⟩
    · have hqe : (qReject env path).1.2.2 = none := qoe_err_none hq
      exact ⟨(qReject env path).1.1, by simp [process, hp, hqe]⟩
  · intro e hp hte
    have hqe : (qAfter env path keep e).1.2.2 = none := qoe_err_none hq
    refine ⟨(qAfter env path keep e).1.1, by simp [process, hp, hte, hqe], ?_, ?_⟩
    · have herr : (qAfter env path keep e).1.1.errors =
          (tAfter env path keep).1.1.errors ++ [e] := qoe_errors
      rw [herr]
      simp
    · obtain ⟨b1, b2, hb⟩ := @qoe_check_mem env path
        { (tAfter env path keep).1.1 with
          errors := (tAfter env path keep).1.1.errors ++ [e] }
        ((tAfter env path keep).1.2.1)
      refine ⟨b1, b2, ?_⟩
      have htr : (process env path keep).2 =
          (tAfter env path keep).2 ++ (qAfter env path keep e).2 := by
        simp [process, hp, hte, hqe]
      rw [htr]
      exact List.mem_append_right _ hb

/-- Concrete instantiation of the error boundary: with a cooperating
quarantine, a failing analysis call is caught, recorded and checked for
quarantine, and `process` still returns a result. -/
theorem c2_witness :
    ∃ r, (process envAnalyzeFails demoPath false).1 = Except.ok r
      ∧ "analysis failed" ∈ r.errors
      ∧ ∃ b1 b2,
          Event.quarantineCheck b1 b2 ∈ (process envAnalyzeFails demoPath false).2 :=
  (c2_error_boundary envAnalyzeFails demoPath false
    (fun _ => ⟨qP, rfl⟩)).2 "analysis failed" rfl rfl

/-- C3: during a single `process(path, keep)` call, the storage
quarantine operation is invoked on the source if and only if a
quarantine directory was configured and `_quarantine_on_error` observed
"result not successful" and "source file still exists" (the recorded
`quarantineCheck true true`); and whenever the gate holds and the
quarantine moves themselves succeed, the trace of `_quarantine_on_error`
is exactly: the gate observation, the quarantine of the source, then the
quarantine of each of the `.txt` and `.yaml` sidecar siblings that exist
on disk at that moment. -/
theorem c3_quarantine_gating (env : Env) (path : PPath) (keep : Bool) :
    (Event.quarantine path ∈ (process env path keep).2 ↔
      (env.quarantineDir.isSome = true ∧
        Event.quarantineCheck true true ∈ (process env path keep).2))
    ∧ (∀ (r : ProcessingResult) (fs : PPath → Bool),
        (∀ f, ∃ d, env.quarantineRes f = Except.ok d) →
        env.quarantineDir.isSome = true → r.success = false → fs path = true →
        (quarantineOnError env path r fs).2 =
          [Event.quarantineCheck true true, Event.quarantine path]
          ++ ((if setGone fs path (path.withSuffix ".txt") = true
               then [Event.quarantine (path.withSuffix ".txt")] else [])
          ++ (if (if setGone fs path (path.withSuffix ".txt") = true
                  then setGone (setGone fs path) (path.withSuffix ".txt")
                  else setGone fs path) (path.withSuffix ".yaml") = true
              then [Event.quarantine (path.withSuffix ".yaml")] else []))) := by
  constructor
  · by_cases hp : path.suffixLower = ".pdf"
    · rcases tryBody_split env path keep (initResult path) env.exists0 with
        ⟨hnc, hnq, herrs, hns⟩ | ⟨text, hocr, hext, hws, heq⟩
      · have hnc' : ∀ b1 b2,
            Event.quarantineCheck b1 b2 ∉ (tAfter env path keep).2 := hnc
        have hnq' : ∀ f, Event.quarantine f ∉ (tAfter env path keep).2 := hnq
        rcases ht : (tAfter env path keep).1.2.2 with _ | e
        · have htr : (process env path keep).2 = (tAfter env path keep).2 := by
            simp [process, hp, ht]
          rw [htr]
          constructor
          · intro h; exact absurd h (hnq' path)
          · rintro ⟨-, h⟩; exact absurd h (hnc' true true)
        · have htr : (process env path keep).2 =
              (tAfter env path keep).2 ++ (qAfter env path keep e).2 := by
            rcases hqa : (qAfter env path keep e).1.2.2 with _ | e2 <;>
              simp [process, hp, ht, hqa]
          have hr2 : ({ (tAfter env path keep).1.1 with
              errors := (tAfter env path keep).1.1.errors ++ [e] } :
                ProcessingResult).success = false := by
            simp [ProcessingResult.success]
          have hqi : Event.quarantine path ∈ (qAfter env path keep e).2 ↔
              (env.quarantineDir.isSome = true ∧
                ({ (tAfter env path keep).1.1 with
                   errors := (tAfter env path keep).1.1.errors ++ [e] } :
                     ProcessingResult).success = false ∧
                (tAfter env path keep).1.2.1 path = true) := qoe_quar_path_iff
          have hci : Event.quarantineCheck true true ∈ (qAfter env path keep e).2 ↔
              (({ (tAfter env path keep).1.1 with
                  errors := (tAfter env path keep).1.1.errors ++ [e] } :
                    ProcessingResult).success = false ∧
                (tAfter env path keep).1.2.1 path = true) := qoe_check_tt_iff
          rw [htr]
          simp only [List.mem_append, hqi, hci, hr2, true_and]
          constructor
          · rintro (h | ⟨h1, h2⟩)
            · exact absurd h (hnq' path)
            · exact ⟨h1, Or.inr h2⟩
          · rintro ⟨h1, h | h2⟩
            · exact absurd h (hnc' true true)
            · exact Or.inr ⟨h1, h2⟩
      · have heq' : tAfter env path keep =
            ((quarantineOnError env path
                (blankTextResult (initResult path) text) env.exists0).1,
             [Event.ocrProcess, Event.extractText] ++
               (quarantineOnError env path
                 (blankTextResult (initResult path) text) env.exists0).2) := heq
        have hRs : (blankTextResult (initResult path) text).success = false := by
          simp [blankTextResult, initResult, ProcessingResult.success]
        rcases hq1 : (quarantineOnError env path
            (blankTextResult (initResult path) text) env.exists0).1.2.2 with _ | e
        · have ht : (tAfter env path keep).1.2.2 = none := by
            rw [heq']; exact hq1
          have htr : (process env path keep).2 =
              [Event.ocrProcess, Event.extractText] ++
                (quarantineOnError env path
                  (blankTextResult (initResult path) text) env.exists0).2 := by
            simp [process, hp, ht, heq', hq1]
          rw [htr]
          simp [qoe_quar_path_iff, qoe_check_tt_iff, hRs]
        · have ht : (tAfter env path keep).1.2.2 = some e := by
            rw [heq']; exact hq1
          obtain ⟨hdir, hfail, hex⟩ := qoe_err_some_gate hq1
          have hqmem := (@qoe_quar_path_iff env path
            (blankTextResult (initResult path) text)
            env.exists0).mpr ⟨hdir, hfail, hex⟩
          have hcmem := (@qoe_check_tt_iff env path
            (blankTextResult (initResult path) text)
            env.exists0).mpr ⟨hfail, hex⟩
          have htr : (process env path keep).2 =
              (tAfter env path keep).2 ++ (qAfter env path keep e).2 := by
            rcases hqa : (qAfter env path keep e).1.2.2 with _ | e2 <;>
              simp [process, hp, ht, hqa]
          have hmem1 : Event.quarantine path ∈ (tAfter env path keep).2 := by
            rw [heq']
            exact List.mem_append_right _ hqmem
          have hmem2 : Event.quarantineCheck true true ∈ (tAfter env path keep).2 := by
            rw [heq']
            exact List.mem_append_right _ hcmem
          rw [htr]
          constructor
          · intro _
            exact ⟨hdir, List.mem_append_left _ hmem2⟩
          · intro _
            exact List.mem_append_left _ hmem1
    · have htr : (process env path keep).2 = (qReject env path).2 := by
        rcases hqr : (qReject env path).1.2.2 with _ | e <;>
          simp [process, hp, hqr]
      have hrs : (rejectResult path).success = false := by
        simp [rejectResult, ProcessingResult.success]
      rw [htr, qReject]
      rw [qoe_quar_path_iff, qoe_check_tt_iff]
  · intro r fs hq hdir hfail hex
    have hgate : quarantineGate env path r fs = true := by
      rw [quarantineGate, hdir, hfail, hex]
      rfl
    obtain ⟨d, hd⟩ := hq path
    rw [qoe_gate_true_ok hgate hd, quarantineSidecars_ok_eq hq]

/-- Concrete instantiation of the quarantine gating: a rejected `.docx`
input with a configured quarantine directory is quarantined, and the
quarantine run moves the document plus both of its existing sidecars. -/
theorem c3_witness :
    Event.quarantine pDocx ∈ (process envAllOk pDocx false).2
    ∧ (quarantineOnError envAllOk pDocx (rejectResult pDocx)
        envAllOk.exists0).2 =
      [Event.quarantineCheck true true, Event.quarantine pDocx,
       Event.quarantine (pDocx.withSuffix ".txt"),
       Event.quarantine (pDocx.withSuffix ".yaml")] := by
  have h := c3_quarantine_gating envAllOk pDocx false
  constructor
  · exact h.1.mpr ⟨rfl, by decide⟩
  · have hb := h.2 (rejectResult pDocx) envAllOk.exists0
      (fun _ => ⟨qP, rfl⟩) rfl rfl rfl
    rw [hb]
    rfl

theorem qoe_no_cap_event {env : Env} {path : PPath} {r : ProcessingResult}
    {fs : PPath → Bool} {e : Event}
    (hcap : (∀ b1 b2, e ≠ Event.quarantineCheck b1 b2) ∧
      ∀ f, e ≠ Event.quarantine f) :
    e ∉ (quarantineOnError env path r fs).2 := by
  intro hmem
  rcases qoe_shape e hmem with ⟨b1, b2, h⟩ | ⟨f, h⟩
  · exact hcap.1 b1 b2 h
  · exact hcap.2 f h

/-- C4: a non-PDF input is rejected immediately with the error
`"Unsupported file type: <ext>"` and never invokes the OCR, Analysis or
Metadata-Write capabilities; and an input whose extracted text is empty
or whitespace-only records the error `"No text extracted from
document"` and never invokes the Analysis capability. -/
theorem c4_short_circuit (env : Env) (path : PPath) (keep : Bool) :
    (path.suffixLower ≠ ".pdf" →
      (Event.ocrProcess ∉ (process env path keep).2
        ∧ Event.extractText ∉ (process env path keep).2
        ∧ Event.analyze ∉ (process env path keep).2
        ∧ Event.updatePdf ∉ (process env path keep).2
        ∧ Event.writeSidecar ∉ (process env path keep).2
        ∧ ∀ r, (process env path keep).1 = Except.ok r →
            r.errors = ["Unsupported file type: " ++ path.suffix]))
    ∧ (∀ text, path.suffixLower = ".pdf" → env.ocrProcess = Except.ok () →
        env.extractText = Except.ok text →
        text.data.all isPyWhitespace = true →
        (Event.analyze ∉ (process env path keep).2
          ∧ ∀ r, (process env path keep).1 = Except.ok r →
              "No text extracted from document" ∈ r.errors)) := by
  constructor
  · intro hp
    have htr : (process env path keep).2 = (qReject env path).2 := by
      rcases hqr : (qReject env path).1.2.2 with _ | e <;>
        simp [process, hp, hqr]
    rw [htr]
    refine ⟨?_, ?_, ?_, ?_, ?_, ?_⟩
    · exact qoe_no_cap_event ⟨fun b1 b2 h => Event.noConfusion h, fun f h => Event.noConfusion h⟩
    · exact qoe_no_cap_event ⟨fun b1 b2 h => Event.noConfusion h, fun f h => Event.noConfusion h⟩
    · exact qoe_no_cap_event ⟨fun b1 b2 h => Event.noConfusion h, fun f h => Event.noConfusion h⟩
    · exact qoe_no_cap_event ⟨fun b1 b2 h => Event.noConfusion h, fun f h => Event.noConfusion h⟩
    · exact qoe_no_cap_event ⟨fun b1 b2 h => Event.noConfusion h, fun f h => Event.noConfusion h⟩
    · intro r hr
      rcases hqr : (qReject env path).1.2.2 with _ | e
      · simp [process, hp, hqr] at hr
        rw [← hr]
        have herr : (qReject env path).1.1.errors = (rejectResult path).errors :=
          qoe_errors
        rw [herr]
        rfl
      · simp [process, hp, hqr] at hr
  · intro text hp hocr hext hws
    have heq' : tAfter env path keep =
        ((quarantineOnError env path
            (blankTextResult (initResult path) text) env.exists0).1,
         [Event.ocrProcess, Event.extractText] ++
           (quarantineOnError env path
             (blankTextResult (initResult path) text) env.exists0).2) := by
      simp [tAfter, tryBody, hocr, hext, hws, blankTextResult, initResult]
    constructor
    · rcases hq1 : (quarantineOnError env path
          (blankTextResult (initResult path) text) env.exists0).1.2.2 with _ | e
      · have ht : (tAfter env path keep).1.2.2 = none := by
          rw [heq']; exact hq1
        have htr : (process env path keep).2 =
            [Event.ocrProcess, Event.extractText] ++
              (quarantineOnError env path
                (blankTextResult (initResult path) text) env.exists0).2 := by
          simp [process, hp, ht, heq', hq1]
        rw [htr]
        intro hmem
        simp only [List.mem_append, List.mem_cons, List.mem_singleton] at hmem
        rcases hmem with (h | h | h) | h
        · cases h
        · cases h
        · cases h
        · exact qoe_no_cap_event
            ⟨fun b1 b2 h' => Event.noConfusion h', fun f h' => Event.noConfusion h'⟩ h
      · have ht : (tAfter env path keep).1.2.2 = some e := by
          rw [heq']; exact hq1
        have htr : (process env path keep).2 =
            (tAfter env path keep).2 ++ (qAfter env path keep e).2 := by
          rcases hqa : (qAfter env path keep e).1.2.2 with _ | e2 <;>
            simp [process, hp, ht, hqa]
        rw [htr]
        intro hmem
        rcases List.mem_append.mp hmem with h | h
        · rw [heq'] at h
          rcases List.mem_append.mp h with h' | h'
          · simp at h'
          · exact qoe_no_cap_event
              ⟨fun b1 b2 h'' => Event.noConfusion h'', fun f h'' => Event.noConfusion h''⟩ h'
        · exact qoe_no_cap_event
            ⟨fun b1 b2 h'' => Event.noConfusion h'', fun f h'' => Event.noConfusion h''⟩ h
    · intro r hr
      rcases hq1 : (quarantineOnError env path
          (blankTextResult (initResult path) text) env.exists0).1.2.2 with _ | e
      · have ht : (tAfter env path keep).1.2.2 = none := by
          rw [heq']; exact hq1
        simp only [process, hp, ne_eq, not_true_eq_false, if_false, ht] at hr
        have hr' : r = (tAfter env path keep).1.1 := by
          simp at hr; exact hr.symm
        rw [hr', heq']
        have herr : (quarantineOnError env path
            (blankTextResult (initResult path) text) env.exists0).1.1.errors =
              (blankTextResult (initResult path) text).errors := qoe_errors
        show "No text extracted from document" ∈ (quarantineOnError env path
          (blankTextResult (initResult path) text) env.exists0).1.1.errors
        rw [herr]
        simp [blankTextResult]
      · have ht : (tAfter env path keep).1.2.2 = some e := by
          rw [heq']; exact hq1
        rcases hqa : (qAfter env path keep e).1.2.2 with _ | e2
        · simp only [process, hp, ne_eq, not_true_eq_false, if_false, ht, hqa] at hr
          have hr' : r = (qAfter env path keep e).1.1 := by
            simp at hr; exact hr.symm
          rw [hr']
          have herr : (qAfter env path keep e).1.1.errors =
              (tAfter env path keep).1.1.errors ++ [e] := qoe_errors
          rw [herr, heq']
          have herr2 : (quarantineOnError env path
              (blankTextResult (initResult path) text) env.exists0).1.1.errors =
                (blankTextResult (initResult path) text).errors := qoe_errors
          show "No text extracted from document" ∈
            (quarantineOnError env path
              (blankTextResult (initResult path) text) env.exists0).1.1.errors ++ [e]
          rw [herr2]
          simp [blankTextResult]
        · simp only [process, hp, ne_eq, not_true_eq_false, if_false, ht, hqa] at hr
          cases hr

/-- Concrete instantiation of the short-circuiting: a `.docx` input is
rejected without any capability invocation, and a PDF whose OCR text is
blank records the no-text error. -/
theorem c4_witness :
    Event.ocrProcess ∉ (process envAllOk pDocx false).2
    ∧ Event.analyze ∉ (process envEmptyText demoPath false).2
    ∧ "No text extracted from document" ∈
        ({ source_path := demoPath,
           errors := ["No text extracted from document"],
           text_length := 3, output_path := some qP } : ProcessingResult).errors := by
  refine ⟨ ((c4_short_circuit envAllOk pDocx false).1 (by decide)).1, ?_, ?_⟩
  · exact ((c4_short_circuit envEmptyText demoPath false).2 "   " rfl rfl rfl
      (by decide)).1
  · exact ((c4_short_circuit envEmptyText demoPath false).2 "   " rfl rfl rfl
      (by decide)).2 _ rfl

/-- C5 counterexample: with `keep_in_place = true`, if OCR raises (and no
quarantine directory is configured, as the CLI wires `--keep`), `process`
returns a result whose output path is `None`, not the input path —
refuting the unconditional "output path equals input path" part of the
claim. -/
theorem c5_counterexample :
    (process envKeepFails demoPath true).1 =
      Except.ok { source_path := demoPath, errors := ["ocr failed"] }
    ∧ ({ source_path := demoPath, errors := ["ocr failed"] } :
        ProcessingResult).output_path ≠ some demoPath := by
  exact ⟨rfl, by decide⟩

/-- C5 (amended): with `keep_in_place = true` the Storage capability's
archive (`store`) function is never invoked, and whenever the returned
result is successful its output path equals the input path and its
sidecar path is the location the sidecar writer returned (the sidecar's
original location).  (The unconditional output-path equality of the
original claim fails on unsuccessful runs; see `c5_counterexample`.) -/
theorem c5_keep_in_place (env : Env) (path : PPath) :
    Event.store ∉ (process env path true).2
    ∧ (∀ r y, (process env path true).1 = Except.ok r → r.success = true →
        env.writeSidecar = Except.ok y →
        r.output_path = some path ∧ r.sidecar_path = some y) := by
  constructor
  · by_cases hp : path.suffixLower = ".pdf"
    · rcases tryBody_split env path true (initResult path) env.exists0 with
        ⟨hnc, hnq, herrs, hns⟩ | ⟨text, hocr, hext, hws, heq⟩
      · have hns' : Event.store ∉ (tAfter env path true).2 := hns rfl
        rcases ht : (tAfter env path true).1.2.2 with _ | e
        · have htr : (process env path true).2 = (tAfter env path true).2 := by
            simp [process, hp, ht]
          rw [htr]; exact hns'
        · have htr : (process env path true).2 =
              (tAfter env path true).2 ++ (qAfter env path true e).2 := by
            rcases hqa : (qAfter env path true e).1.2.2 with _ | e2 <;>
              simp [process, hp, ht, hqa]
          rw [htr]
          intro hmem
          rcases List.mem_append.mp hmem with h | h
          · exact hns' h
          · exact qoe_no_cap_event
              ⟨fun b1 b2 h' => Event.noConfusion h',
               fun f h' => Event.noConfusion h'⟩ h
      · have heq' : tAfter env path true =
            ((quarantineOnError env path
                (blankTextResult (initResult path) text) env.exists0).1,
             [Event.ocrProcess, Event.extractText] ++
               (quarantineOnError env path
                 (blankTextResult (initResult path) text) env.exists0).2) := heq
        rcases hq1 : (quarantineOnError env path
            (blankTextResult (initResult path) text) env.exists0).1.2.2 with _ | e
        · have ht : (tAfter env path true).1.2.2 = none := by
            rw [heq']; exact hq1
          have htr : (process env path true).2 =
              [Event.ocrProcess, Event.extractText] ++
                (quarantineOnError env path
                  (blankTextResult (initResult path) text) env.exists0).2 := by
            simp [process, hp, ht, heq', hq1]
          rw [htr]
          intro hmem
          rcases List.mem_append.mp hmem with h | h
          · simp at h
          · exact qoe_no_cap_event
              ⟨fun b1 b2 h' => Event.noConfusion h',
               fun f h' => Event.noConfusion h'⟩ h
        · have ht : (tAfter env path true).1.2.2 = some e := by
            rw [heq']; exact hq1
          have htr : (process env path true).2 =
              (tAfter env path true).2 ++ (qAfter env path true e).2 := by
            rcases hqa : (qAfter env path true e).1.2.2 with _ | e2 <;>
              simp [process, hp, ht, hqa]
          rw [htr]
          intro hmem
          rcases List.mem_append.mp hmem with h | h
          · rw [heq'] at h
            rcases List.mem_append.mp h with h' | h'
            · simp at h'
            · exact qoe_no_cap_event
                ⟨fun b1 b2 h'' => Event.noConfusion h'',
                 fun f h'' => Event.noConfusion h''⟩ h'
          · exact qoe_no_cap_event
              ⟨fun b1 b2 h' => Event.noConfusion h',
               fun f h' => Event.noConfusion h'⟩ h
    · have htr : (process env path true).2 = (qReject env path).2 := by
        rcases hqr : (qReject env path).1.2.2 with _ | e <;>
          simp [process, hp, hqr]
      rw [htr]
      exact qoe_no_cap_event
        ⟨fun b1 b2 h => Event.noConfusion h, fun f h => Event.noConfusion h⟩
  · intro r y hr hrs hy
    have hemp : r.errors = [] := by
      simp [ProcessingResult.success, List.length_eq_zero] at hrs
      exact hrs.1
    by_cases hp : path.suffixLower = ".pdf"
    · rcases ht : (tAfter env path true).1.2.2 with _ | e
      · simp only [process, hp, ne_eq, not_true_eq_false, if_false, ht] at hr
        have hr' : r = (tAfter env path true).1.1 := by
          simp at hr; exact hr.symm
        have hfields := tryBody_keep_fields env path (initResult path) env.exists0
          ht (by show (tAfter env path true).1.1.errors = (initResult path).errors
                 rw [← hr', hemp]; rfl) hy
        rw [hr']
        exact hfields
      · rcases hqa : (qAfter env path true e).1.2.2 with _ | e2
        · simp only [process, hp, ne_eq, not_true_eq_false, if_false, ht, hqa] at hr
          have hr' : r = (qAfter env path true e).1.1 := by
            simp at hr; exact hr.symm
          exfalso
          have herr : (qAfter env path true e).1.1.errors =
              (tAfter env path true).1.1.errors ++ [e] := qoe_errors
          rw [hr', herr] at hemp
          simp at hemp
        · simp only [process, hp, ne_eq, not_true_eq_false, if_false, ht, hqa] at hr
          cases hr
    · rcases hqr : (qReject env path).1.2.2 with _ | e
      · simp only [process, hp, ne_eq, ite_not] at hr
        rw [if_neg (by simp [hp])] at hr
        rw [hqr] at hr
        have hr' : r = (qReject env path).1.1 := by
          simp at hr; exact hr.symm
        exfalso
        have herr : (qReject env path).1.1.errors = (rejectResult path).errors :=
          qoe_errors
        rw [hr', herr] at hemp
        cases hemp
      · exfalso
        simp only [process, hp, ne_eq, ite_not] at hr
        rw [if_neg (by simp [hp])] at hr
        rw [hqr] at hr
        cases hr

/-- Concrete instantiation of keep-in-place: on a successful `--keep`
run, `store` is never invoked and the result points at the original
document and sidecar. -/
theorem c5_witness :
    Event.store ∉ (process envAllOk demoPath true).2
    ∧ ({ source_path := demoPath, document_info := some demoInfo,
         output_path := some demoPath, sidecar_path := some yamlP,
         text_length := 5 } : ProcessingResult).output_path = some demoPath
    ∧ ({ source_path := demoPath, document_info := some demoInfo,
         output_path := some demoPath, sidecar_path := some yamlP,
         text_length := 5 } : ProcessingResult).sidecar_path = some yamlP := by
  have h := c5_keep_in_place envAllOk demoPath
  refine ⟨h.1, ?_, ?_⟩
  · exact (h.2 _ yamlP rfl rfl rfl).1
  · exact (h.2 _ yamlP rfl rfl rfl).2

/-! ### Character-level safety of `sanitize_filename` -/

/-- A character that can survive sanitization: not one of the replaced
specials, not a null byte, and — since every `[_\s]` run was collapsed —
the only whitespace-class character left is a plain space. -/
def SafeChar (c : Char) : Prop :=
  isBadChar c = false ∧ c ≠ '\x00' ∧ (isCollapseChar c = true → c = ' ')

instance (c : Char) : Decidable (SafeChar c) := by
  unfold SafeChar
  infer_instance

theorem mem_replaceDotDot {c : Char} :
    ∀ {l : List Char}, c ∈ replaceDotDot l → c ∈ l ∨ c = '_' := by
  intro l
  induction l using replaceDotDot.induct with
  | case1 => intro h; cases h
  | case2 d => intro h; exact Or.inl h
  | case3 a b rest hab ih =>
    intro h
    rw [replaceDotDot, if_pos hab] at h
    rcases List.mem_cons.mp h with h | h
    · exact Or.inr h
    · rcases ih h with h' | h'
      · exact Or.inl (by simp [h'])
      · exact Or.inr h'
  | case4 a b rest hab ih =>
    intro h
    rw [replaceDotDot, if_neg hab] at h
    rcases List.mem_cons.mp h with h | h
    · exact Or.inl (by simp [h])
    · rcases ih h with h' | h'
      · exact Or.inl (List.mem_cons_of_mem a h')
      · exact Or.inr h'

theorem mem_collapseRunsAux {c : Char} :
    ∀ {l : List Char} {b : Bool}, c ∈ collapseRunsAux b l →
      c = ' ' ∨ (c ∈ l ∧ isCollapseChar c = false) := by
  intro l
  induction l with
  | nil => intro b h; cases h
  | cons a rest ih =>
    intro b h
    rcases ha : isCollapseChar a with _ | _
    · rw [collapseRunsAux, ha] at h
      simp only [Bool.false_eq_true, if_false] at h
      rcases List.mem_cons.mp h with h | h
      · rw [h]; exact Or.inr ⟨List.mem_cons_self a rest, ha⟩
      · rcases ih h with h' | ⟨h1, h2⟩
        · exact Or.inl h'
        · exact Or.inr ⟨List.mem_cons_of_mem a h1, h2⟩
    · rw [collapseRunsAux, ha] at h
      simp only [if_true] at h
      cases b with
      | true =>
        rcases ih h with h' | ⟨h1, h2⟩
        · exact Or.inl h'
        · exact Or.inr ⟨List.mem_cons_of_mem a h1, h2⟩
      | false =>
        rcases List.mem_cons.mp h with h | h
        · exact Or.inl h
        · rcases ih h with h' | ⟨h1, h2⟩
          · exact Or.inl h'
          · exact Or.inr ⟨List.mem_cons_of_mem a h1, h2⟩

theorem mem_stripDotsSpaces {c : Char} {l : List Char}
    (h : c ∈ stripDotsSpaces l) : c ∈ l := by
  unfold stripDotsSpaces at h
  rw [List.mem_reverse] at h
  have h1 := (List.dropWhile_sublist (p := isStripChar)).subset h
  rw [List.mem_reverse] at h1
  exact (List.dropWhile_sublist (p := isStripChar)).subset h1

theorem mem_dropAfterLastSpace {c : Char} {l : List Char}
    (h : c ∈ dropAfterLastSpace l) : c ∈ l := by
  unfold dropAfterLastSpace at h
  split at h
  · rw [List.mem_reverse] at h
    have h1 := (List.drop_subset _ _) h
    have h2 := (List.dropWhile_sublist (p := fun c => ¬ c = ' ')).subset h1
    rw [List.mem_reverse] at h2
    exact h2
  · exact h

theorem mem_truncateName {c : Char} {maxLength : Nat} {l : List Char}
    (h : c ∈ truncateName maxLength l) : c ∈ l := by
  unfold truncateName at h
  split at h
  · exact (List.take_subset _ _) (mem_dropAfterLastSpace h)
  · exact h

theorem sanitizeChars_safe {maxLength : Nat} {l : List Char} :
    ∀ c ∈ sanitizeChars maxLength l, SafeChar c := by
  intro c hc
  unfold sanitizeChars at hc
  have h5 := mem_stripDotsSpaces (mem_truncateName hc)
  rcases mem_collapseRunsAux h5 with h | ⟨h4, hnc⟩
  · subst h
    exact ⟨by decide, by decide, fun _ => rfl⟩
  · obtain ⟨a, ha, hfa⟩ := List.mem_map.mp h4
    rcases hba : isBadChar a with _ | _
    · rw [badMap, hba] at hfa
      simp only [Bool.false_eq_true, if_false] at hfa
      subst hfa
      refine ⟨hba, ?_, fun hcc => absurd hcc (by rw [hnc]; exact Bool.false_ne_true)⟩
      rcases mem_replaceDotDot ha with h' | h'
      · rw [removeNulls] at h'
        have := (List.mem_filter.mp h').2
        intro hnull
        rw [hnull] at this
        simp at this
      · subst h'
        intro hnull
        cases hnull
    · rw [badMap, hba] at hfa
      simp only [if_true] at hfa
      exfalso
      rw [← hfa] at hnc
      cases hnc

theorem sanitize_filename_safe :
    ∀ (x : String) (c : Char), c ∈ (sanitize_filename x).data → SafeChar c := by
  intro x c hc
  simp only [sanitize_filename] at hc
  split at hc
  · revert hc
    have : ∀ c ∈ "Untitled".data, SafeChar c := by decide
    exact this c
  · exact sanitizeChars_safe c hc

/-- C7: the sanitized output never contains a replaced special character
(`< > : " / \ | ? *`), a null byte, or the traversal sequence `"../"`;
and the spec's concrete examples hold: `"../../../etc/passwd"` maps to
`"etc passwd"`, while `""`, `"   "` and `"..."` all map to
`"Untitled"`. -/
theorem c7_sanitize_safety :
    (∀ (x : String) (c : Char), c ∈ (sanitize_filename x).data →
      isBadChar c = false ∧ c ≠ '\x00')
    ∧ (∀ x : String, ¬ ['.', '.', '/'] <:+: (sanitize_filename x).data)
    ∧ sanitize_filename "../../../etc/passwd" = "etc passwd"
    ∧ sanitize_filename "" = "Untitled"
    ∧ sanitize_filename "   " = "Untitled"
    ∧ sanitize_filename "..." = "Untitled" := by
  refine ⟨?_, ?_, by decide, by decide, by decide, by decide⟩
  · intro x c hc
    have h := sanitize_filename_safe x c hc
    exact ⟨h.1, h.2.1⟩
  · intro x hinf
    have hmem : '/' ∈ (sanitize_filename x).data :=
      hinf.subset (by decide)
    have h := sanitize_filename_safe x '/' hmem
    have : isBadChar '/' = true := by decide
    rw [h.1] at this
    cases this

/-- Concrete instantiation of the sanitization safety theorem. -/
theorem c7_witness :
    (isBadChar 'a' = false ∧ 'a' ≠ '\x00')
    ∧ ¬ ['.', '.', '/'] <:+: (sanitize_filename "a<.../..b").data := by
  constructor
  · exact c7_sanitize_safety.1 "a<b" 'a' (by decide)
  · exact c7_sanitize_safety.2.1 "a<.../..b"

/-! ### Idempotence analysis of `sanitize_filename` -/

/-- No two adjacent dots. -/
def noDD (a b : Char) : Prop := ¬(a = '.' ∧ b = '.')

/-- No two adjacent `[_\s]`-class characters. -/
def noCC (a b : Char) : Prop :=
  ¬(isCollapseChar a = true ∧ isCollapseChar b = true)

theorem noDD_symm {a b : Char} (h : noDD a b) : noDD b a :=
  fun ⟨h1, h2⟩ => h ⟨h2, h1⟩

theorem noCC_symm {a b : Char} (h : noCC a b) : noCC b a :=
  fun ⟨h1, h2⟩ => h ⟨h2, h1⟩

theorem chain'_reverse_of_symm {R : Char → Char → Prop}
    (hsym : ∀ a b, R a b → R b a) {l : List Char}
    (h : List.Chain' R l) : List.Chain' R l.reverse :=
  List.chain'_reverse.mpr (h.imp hsym)

theorem chain'_stripDotsSpaces {R : Char → Char → Prop}
    (hsym : ∀ a b, R a b → R b a) {l : List Char}
    (h : List.Chain' R l) : List.Chain' R (stripDotsSpaces l) := by
  unfold stripDotsSpaces
  apply chain'_reverse_of_symm hsym
  apply List.Chain'.suffix _ (List.dropWhile_suffix _)
  apply chain'_reverse_of_symm hsym
  exact List.Chain'.suffix h (List.dropWhile_suffix _)

theorem dropAfterLastSpace_pref (m : List Char) :
    dropAfterLastSpace m <+: m := by
  unfold dropAfterLastSpace
  split
  · have h1 : ((m.reverse.dropWhile fun c => ¬ c = ' ').drop 1) <:+ m.reverse :=
      (List.drop_suffix _ _).trans (List.dropWhile_suffix _)
    have h2 := List.reverse_prefix.mpr h1
    rwa [List.reverse_reverse] at h2
  · exact List.prefix_refl m

theorem truncateName_pref (n : Nat) (l : List Char) :
    truncateName n l <+: l := by
  unfold truncateName
  split
  · exact (dropAfterLastSpace_pref _).trans (List.take_prefix _ _)
  · exact List.prefix_refl l

theorem truncateName_length_le (n : Nat) (l : List Char) :
    (truncateName n l).length ≤ n := by
  unfold truncateName
  split
  · exact le_trans ((dropAfterLastSpace_pref _).length_le)
      (List.length_take_le _ _)
  · exact Nat.le_of_not_lt (by assumption)

theorem head?_of_pref {l₁ l₂ : List Char} {c : Char}
    (h : l₁ <+: l₂) (hc : l₁.head? = some c) : l₂.head? = some c := by
  obtain ⟨t, rfl⟩ := h
  cases l₁ with
  | nil => cases hc
  | cons a r => simpa using hc

theorem head?_replaceDotDot (d : Char) (rest : List Char) :
    (replaceDotDot (d :: rest)).head? = some d ∨
    (replaceDotDot (d :: rest)).head? = some '_' := by
  cases rest with
  | nil => exact Or.inl rfl
  | cons e r =>
    by_cases h : d = '.' ∧ e = '.'
    · rw [replaceDotDot, if_pos h]; exact Or.inr rfl
    · rw [replaceDotDot, if_neg h]; exact Or.inl rfl

theorem noDD_replaceDotDot : ∀ l : List Char,
    List.Chain' noDD (replaceDotDot l) := by
  intro l
  induction l using replaceDotDot.induct with
  | case1 => simp [replaceDotDot]
  | case2 c => simp [replaceDotDot]
  | case3 c d rest hab ih =>
    rw [replaceDotDot, if_pos hab]
    rw [List.chain'_cons']
    refine ⟨?_, ih⟩
    intro y _
    intro ⟨h1, _⟩
    cases h1
  | case4 c d rest hab ih =>
    rw [replaceDotDot, if_neg hab]
    rw [List.chain'_cons']
    refine ⟨?_, ih⟩
    intro y hy
    rcases head?_replaceDotDot d rest with h | h
    · rw [h] at hy
      have hyd : y = d := (by simpa using hy : d = y).symm
      subst hyd
      exact fun ⟨h1, h2⟩ => hab ⟨h1, h2⟩
    · rw [h] at hy
      have hyu : y = '_' := (by simpa using hy : '_' = y).symm
      subst hyu
      intro ⟨_, h2⟩
      cases h2

theorem badMap_dot {a : Char} (h : badMap a = '.') : a = '.' := by
  by_cases hb : isBadChar a = true
  · rw [badMap, if_pos hb] at h
    cases h
  · rwa [badMap, if_neg hb] at h

theorem noDD_map {l : List Char} (h : List.Chain' noDD l) :
    List.Chain' noDD (l.map badMap) := by
  rw [List.chain'_map]
  exact h.imp fun a b hab ⟨h1, h2⟩ => hab ⟨badMap_dot h1, badMap_dot h2⟩

theorem collapseRunsAux_cons_coll_t {c : Char} {rest : List Char}
    (hc : isCollapseChar c = true) :
    collapseRunsAux true (c :: rest) = collapseRunsAux true rest := by
  simp [collapseRunsAux, hc]

theorem collapseRunsAux_cons_coll_f {c : Char} {rest : List Char}
    (hc : isCollapseChar c = true) :
    collapseRunsAux false (c :: rest) = ' ' :: collapseRunsAux true rest := by
  simp [collapseRunsAux, hc]

theorem collapseRunsAux_cons_notcoll {c : Char} {rest : List Char} {b : Bool}
    (hc : isCollapseChar c = false) :
    collapseRunsAux b (c :: rest) = c :: collapseRunsAux false rest := by
  simp [collapseRunsAux, hc]

theorem head?_collapseRunsAux_true {l : List Char} {h : Char}
    (hh : (collapseRunsAux true l).head? = some h) :
    isCollapseChar h = false := by
  induction l with
  | nil => cases hh
  | cons c rest ih =>
    rcases hc : isCollapseChar c with _ | _
    · rw [collapseRunsAux_cons_notcoll hc] at hh
      have hhc : h = c := by simpa using Option.some.inj hh |>.symm
      rwa [hhc]
    · rw [collapseRunsAux_cons_coll_t hc] at hh
      exact ih hh

theorem head?_collapseRunsAux_false (l : List Char) :
    (collapseRunsAux false l).head? =
      l.head?.map (fun c => if isCollapseChar c then ' ' else c) := by
  cases l with
  | nil => rfl
  | cons c rest =>
    rcases hc : isCollapseChar c with _ | _
    · rw [collapseRunsAux_cons_notcoll hc]
      simp [hc]
    · rw [collapseRunsAux_cons_coll_f hc]
      simp [hc]

theorem noDD_collapseRunsAux :
    ∀ (l : List Char) (b : Bool), List.Chain' noDD l →
      List.Chain' noDD (collapseRunsAux b l) := by
  intro l
  induction l with
  | nil => intro b _; simp [collapseRunsAux]
  | cons c rest ih =>
    intro b hch
    obtain ⟨hhead, htail⟩ := List.chain'_cons'.mp hch
    rcases hc : isCollapseChar c with _ | _
    · rw [collapseRunsAux_cons_notcoll hc]
      rw [List.chain'_cons']
      refine ⟨?_, ih false htail⟩
      intro y hy
      rw [head?_collapseRunsAux_false] at hy
      cases rest with
      | nil => cases hy
      | cons d r' =>
        simp only [List.head?_cons, Option.map_some'] at hy
        have hyd : y = if isCollapseChar d = true then ' ' else d :=
          (Option.some.inj (by simpa using hy)).symm
        rcases hd : isCollapseChar d with _ | _
        · rw [hd] at hyd
          simp only [Bool.false_eq_true, if_false] at hyd
          subst hyd
          exact hhead y rfl
        · rw [hd] at hyd
          simp only [if_true] at hyd
          subst hyd
          intro ⟨_, h2⟩
          cases h2
    · cases b with
      | true =>
        rw [collapseRunsAux_cons_coll_t hc]
        exact ih true htail
      | false =>
        rw [collapseRunsAux_cons_coll_f hc]
        rw [List.chain'_cons']
        refine ⟨?_, ih true htail⟩
        intro y _
        intro ⟨h1, _⟩
        cases h1

theorem noCC_collapseRunsAux :
    ∀ (l : List Char) (b : Bool), List.Chain' noCC (collapseRunsAux b l) := by
  intro l
  induction l with
  | nil => intro b; simp [collapseRunsAux]
  | cons c rest ih =>
    intro b
    rcases hc : isCollapseChar c with _ | _
    · rw [collapseRunsAux_cons_notcoll hc]
      rw [List.chain'_cons']
      refine ⟨?_, ih false⟩
      intro y _
      intro ⟨h1, _⟩
      rw [hc] at h1
      cases h1
    · cases b with
      | true =>
        rw [collapseRunsAux_cons_coll_t hc]
        exact ih true
      | false =>
        rw [collapseRunsAux_cons_coll_f hc]
        rw [List.chain'_cons']
        refine ⟨?_, ih true⟩
        intro y hy
        intro ⟨_, h2⟩
        rw [head?_collapseRunsAux_true (by simpa using hy)] at h2
        cases h2

theorem head?_dropWhile_false {p : Char → Bool} {l : List Char} {c : Char}
    (h : (l.dropWhile p).head? = some c) : p c = false := by
  induction l with
  | nil => cases h
  | cons a r ih =>
    rcases hp : p a with _ | _
    · rw [List.dropWhile_cons_of_neg (by rw [hp]; exact Bool.false_ne_true)] at h
      have hca : c = a := by simpa using Option.some.inj h |>.symm
      rwa [hca]
    · rw [List.dropWhile_cons_of_pos hp] at h
      exact ih h

theorem strip_head_notstrip {l : List Char} {c : Char}
    (h : (stripDotsSpaces l).head? = some c) : isStripChar c = false := by
  have hpre : stripDotsSpaces l <+: l.dropWhile isStripChar := by
    unfold stripDotsSpaces
    have h1 : ((l.dropWhile isStripChar).reverse.dropWhile isStripChar) <:+
        (l.dropWhile isStripChar).reverse := List.dropWhile_suffix _
    have h2 := List.reverse_prefix.mpr h1
    rwa [List.reverse_reverse] at h2
  exact head?_dropWhile_false (head?_of_pref hpre h)

theorem strip_last_notstrip {l : List Char} {c : Char}
    (h : (stripDotsSpaces l).getLast? = some c) : isStripChar c = false := by
  unfold stripDotsSpaces at h
  rw [List.getLast?_reverse] at h
  exact head?_dropWhile_false h

theorem head?_dropWhile_space {m : List Char} (h : ' ' ∈ m) :
    (m.dropWhile fun c => ¬ c = ' ').head? = some ' ' := by
  induction m with
  | nil => cases h
  | cons a r ih =>
    by_cases ha : a = ' '
    · subst ha
      rw [List.dropWhile_cons_of_neg (by simp)]
      rfl
    · rw [List.dropWhile_cons_of_pos (by simp [ha])]
      refine ih ?_
      rcases List.mem_cons.mp h with h' | h'
      · exact absurd h'.symm ha
      · exact h'

theorem dropAfterLastSpace_last {t : List Char} {c : Char}
    (hcc : List.Chain' noCC t)
    (h : (dropAfterLastSpace t).getLast? = some c) : c ≠ ' ' := by
  by_cases hsp : ' ' ∈ t
  · rw [dropAfterLastSpace, if_pos hsp] at h
    have hwh : ((t.reverse.dropWhile fun c => ¬ c = ' ')).head? = some ' ' :=
      head?_dropWhile_space (by rwa [List.mem_reverse])
    rcases hwc : t.reverse.dropWhile fun c => ¬ c = ' ' with _ | ⟨a, w'⟩
    · rw [hwc] at hwh; cases hwh
    · have ha : a = ' ' := by
        rw [hwc] at hwh
        exact Option.some.inj hwh
      rw [hwc] at h
      simp only [List.drop_succ_cons, List.drop_zero] at h
      rw [List.getLast?_reverse] at h
      have hcw : List.Chain' noCC (t.reverse.dropWhile fun c => ¬ c = ' ') :=
        (chain'_reverse_of_symm (fun a b => noCC_symm) hcc).suffix
          (List.dropWhile_suffix _)
      rw [hwc, ha] at hcw
      obtain ⟨hhead, -⟩ := List.chain'_cons'.mp hcw
      have hnc := hhead c h
      intro hceq
      exact hnc ⟨by decide, by rw [hceq]; decide⟩
  · rw [dropAfterLastSpace, if_neg hsp] at h
    intro hceq
    subst hceq
    exact hsp (List.mem_of_mem_getLast? h)

theorem truncateName_last_ne_space (n : Nat) {l : List Char}
    (hcc : List.Chain' noCC l)
    (hl : ∀ c, l.getLast? = some c → c ≠ ' ') :
    ∀ c, (truncateName n l).getLast? = some c → c ≠ ' ' := by
  intro c hc
  unfold truncateName at hc
  split at hc
  · exact dropAfterLastSpace_last (hcc.take n) hc
  · exact hl c hc

/-! No-op lemmas: each sanitization step fixes a string that already has
the corresponding invariant. -/

theorem removeNulls_eq_self {l : List Char} (h : ∀ c ∈ l, c ≠ '\x00') :
    removeNulls l = l := by
  unfold removeNulls
  rw [List.filter_eq_self]
  intro a ha
  simp [h a ha]

theorem replaceDotDot_eq_self :
    ∀ l : List Char, List.Chain' noDD l → replaceDotDot l = l := by
  intro l
  induction l using replaceDotDot.induct with
  | case1 => intro _; rfl
  | case2 c => intro _; rfl
  | case3 c d rest hab ih =>
    intro h
    exact absurd hab (List.chain'_cons.mp h).1
  | case4 c d rest hab ih =>
    intro h
    rw [replaceDotDot, if_neg hab, ih (List.chain'_cons.mp h).2]

theorem map_badMap_eq_self {l : List Char}
    (h : ∀ c ∈ l, isBadChar c = false) : l.map badMap = l := by
  induction l with
  | nil => rfl
  | cons a r ih =>
    rw [List.map_cons, ih (fun c hc => h c (List.mem_cons_of_mem _ hc))]
    have ha : badMap a = a := by
      rw [badMap, if_neg]
      rw [h a (List.mem_cons_self _ _)]
      exact Bool.false_ne_true
    rw [ha]

theorem collapseRunsAux_eq_self :
    ∀ l : List Char, (∀ c ∈ l, isCollapseChar c = true → c = ' ') →
      List.Chain' noCC l →
      (collapseRunsAux false l = l ∧
        ((∀ h, l.head? = some h → isCollapseChar h = false) →
          collapseRunsAux true l = l)) := by
  intro l
  induction l with
  | nil => intro _ _; exact ⟨rfl, fun _ => rfl⟩
  | cons c rest ih =>
    intro hsp hcc
    obtain ⟨hhead, htail⟩ := List.chain'_cons'.mp hcc
    have ihr := ih (fun x hx => hsp x (List.mem_cons_of_mem _ hx)) htail
    rcases hc : isCollapseChar c with _ | _
    · constructor
      · rw [collapseRunsAux_cons_notcoll hc, ihr.1]
      · intro _
        rw [collapseRunsAux_cons_notcoll hc, ihr.1]
    · have hcsp : c = ' ' := hsp c (List.mem_cons_self _ _) hc
      constructor
      · rw [collapseRunsAux_cons_coll_f hc]
        have hrest : collapseRunsAux true rest = rest := by
          apply ihr.2
          intro h hh
          have hncc := hhead h hh
          rcases hch : isCollapseChar h with _ | _
          · rfl
          · exact absurd ⟨hc, hch⟩ hncc
        rw [hrest, hcsp]
      · intro hhd
        have hfc := hhd c rfl
        rw [hc] at hfc
        cases hfc

theorem stripDotsSpaces_eq_self {l : List Char}
    (hhd : ∀ c, l.head? = some c → isStripChar c = false)
    (hlt : ∀ c, l.getLast? = some c → isStripChar c = false) :
    stripDotsSpaces l = l := by
  have h1 : l.dropWhile isStripChar = l := by
    cases hl : l with
    | nil => rfl
    | cons a r =>
      have ha := hhd a (by rw [hl]; rfl)
      rw [List.dropWhile_cons_of_neg]
      rw [ha]
      exact Bool.false_ne_true
  have h2 : l.reverse.dropWhile isStripChar = l.reverse := by
    cases hl : l.reverse with
    | nil => rfl
    | cons a r =>
      have hla : l.getLast? = some a := by
        rw [← List.head?_reverse, hl]
        rfl
      have ha := hlt a hla
      rw [List.dropWhile_cons_of_neg]
      rw [ha]
      exact Bool.false_ne_true
  unfold stripDotsSpaces
  rw [h1, h2, List.reverse_reverse]

theorem truncateName_eq_self {n : Nat} {l : List Char}
    (h : ¬ (n < l.length)) : truncateName n l = l := by
  unfold truncateName
  rw [if_neg h]

set_option maxRecDepth 4000 in
/-- C8 counterexample: 179 `a`s followed by `".b"` sanitizes (via the
length-180 truncation) to a name ending in a dot, which a second pass
strips — so `sanitize_filename` is not idempotent at the default maximum
length of 180. -/
theorem c8_counterexample :
    sanitize_filename
        (sanitize_filename (String.mk (List.replicate 179 'a' ++ ['.', 'b'])))
      ≠ sanitize_filename (String.mk (List.replicate 179 'a' ++ ['.', 'b'])) := by
  decide

/-- C8 (amended): at the default maximum length of 180,
`sanitize_filename` is idempotent on every input whose sanitized output
does not end in a dot — the only exception, reachable only through
truncation, is the one exhibited by `c8_counterexample`. -/
theorem c8_idempotent (x : String)
    (hlast : (sanitize_filename x).data.getLast? ≠ some '.') :
    sanitize_filename (sanitize_filename x) = sanitize_filename x := by
  by_cases hemp : sanitizeChars 180 x.data = []
  · have hx : sanitize_filename x = "Untitled" := by
      simp [sanitize_filename, hemp]
    rw [hx]
    decide
  · have hx : sanitize_filename x = String.mk (sanitizeChars 180 x.data) := by
      simp [sanitize_filename, hemp]
    have hsafe : ∀ c ∈ sanitizeChars 180 x.data, SafeChar c := sanitizeChars_safe
    have hs4dd : List.Chain' noDD
        (collapseRuns ((replaceDotDot (removeNulls x.data)).map badMap)) :=
      noDD_collapseRunsAux _ false (noDD_map (noDD_replaceDotDot _))
    have hs5dd := chain'_stripDotsSpaces (fun a b => noDD_symm) hs4dd
    have hdd : List.Chain' noDD (sanitizeChars 180 x.data) :=
      List.Chain'.prefix hs5dd (truncateName_pref _ _)
    have hs4cc : List.Chain' noCC
        (collapseRuns ((replaceDotDot (removeNulls x.data)).map badMap)) :=
      noCC_collapseRunsAux _ false
    have hs5cc := chain'_stripDotsSpaces (fun a b => noCC_symm) hs4cc
    have hcc : List.Chain' noCC (sanitizeChars 180 x.data) :=
      List.Chain'.prefix hs5cc (truncateName_pref _ _)
    have hhead : ∀ c, (sanitizeChars 180 x.data).head? = some c →
        isStripChar c = false := by
      intro c hc
      exact strip_head_notstrip (head?_of_pref (truncateName_pref _ _) hc)
    have hlastsp : ∀ c, (sanitizeChars 180 x.data).getLast? = some c →
        c ≠ ' ' := by
      apply truncateName_last_ne_space _ hs5cc
      intro c hc hceq
      have hns := strip_last_notstrip hc
      rw [hceq] at hns
      cases hns
    have hld : ∀ c, (sanitizeChars 180 x.data).getLast? = some c →
        c ≠ '.' := by
      intro c hc hceq
      apply hlast
      rw [hx]
      show (sanitizeChars 180 x.data).getLast? = some '.'
      rw [hc, hceq]
    have hstrip : ∀ c, (sanitizeChars 180 x.data).getLast? = some c →
        isStripChar c = false := by
      intro c hc
      have h1 := hlastsp c hc
      have h2 := hld c hc
      simp [isStripChar, h1, h2]
    have hlen : (sanitizeChars 180 x.data).length ≤ 180 :=
      truncateName_length_le 180 _
    have e1 : removeNulls (sanitizeChars 180 x.data) = sanitizeChars 180 x.data :=
      removeNulls_eq_self (fun c hc => (hsafe c hc).2.1)
    have e2 : replaceDotDot (sanitizeChars 180 x.data) = sanitizeChars 180 x.data :=
      replaceDotDot_eq_self _ hdd
    have e3 : (sanitizeChars 180 x.data).map badMap = sanitizeChars 180 x.data :=
      map_badMap_eq_self (fun c hc => (hsafe c hc).1)
    have e4 : collapseRunsAux false (sanitizeChars 180 x.data) =
        sanitizeChars 180 x.data :=
      (collapseRunsAux_eq_self _ (fun c hc => (hsafe c hc).2.2) hcc).1
    have e5 : stripDotsSpaces (sanitizeChars 180 x.data) =
        sanitizeChars 180 x.data :=
      stripDotsSpaces_eq_self hhead hstrip
    have e6 : truncateName 180 (sanitizeChars 180 x.data) =
        sanitizeChars 180 x.data :=
      truncateName_eq_self (Nat.not_lt.mpr hlen)
    have hchars : sanitizeChars 180 (sanitizeChars 180 x.data) =
        sanitizeChars 180 x.data := by
      show truncateName 180
        (stripDotsSpaces
          (collapseRuns
            ((replaceDotDot (removeNulls (sanitizeChars 180 x.data))).map badMap)))
        = sanitizeChars 180 x.data
      rw [e1, e2, e3]
      show truncateName 180
        (stripDotsSpaces (collapseRunsAux false (sanitizeChars 180 x.data)))
        = sanitizeChars 180 x.data
      rw [e4, e5, e6]
    rw [hx]
    have hdata : (String.mk (sanitizeChars 180 x.data)).data =
        sanitizeChars 180 x.data := rfl
    simp only [sanitize_filename, hdata, hchars, hemp, if_false]

/-- Concrete instantiation of the amended idempotence theorem. -/
theorem c8_witness :
    (sanitize_filename "hello").data.getLast? ≠ some '.'
    ∧ sanitize_filename (sanitize_filename "hello") = sanitize_filename "hello" :=
  ⟨by decide, c8_idempotent "hello" (by decide)⟩

/-! ### The archive collision namer (`FilesystemAdapter.store`)

`store` derives `"<title> - <date><ext>"` and, if that destination
exists, tries `"<title> - <date> (1)<ext>"`, `"(2)"`, … until a free
name is found.  The directory contents are modelled as the list of names
already taken.  The termination of the Python `while` loop rests on the
decimal renderings of distinct counters being distinct, so we first
prove `Nat.repr` injective. -/

theorem toDigitsCore_append10 :
    ∀ (f n : Nat) (l : List Char),
      Nat.toDigitsCore 10 f n l = Nat.toDigitsCore 10 f n [] ++ l := by
  intro f
  induction f with
  | zero => intro n l; rfl
  | succ f ih =>
    intro n l
    by_cases h : n / 10 = 0
    · simp [Nat.toDigitsCore, h]
    · simp only [Nat.toDigitsCore, h, if_false]
      rw [ih (n / 10) (Nat.digitChar (n % 10) :: l),
        ih (n / 10) [Nat.digitChar (n % 10)], List.append_assoc]
      rfl

/-- The decimal digit string of `n`, most significant digit first: the
purely structural description of what `Nat.repr` computes. -/
def natChars (n : Nat) : List Char :=
  if n < 10 then [Nat.digitChar n]
  else natChars (n / 10) ++ [Nat.digitChar (n % 10)]
termination_by n
decreasing_by
  exact Nat.div_lt_self (by omega) (by decide)

theorem natChars_lt {n : Nat} (h : n < 10) : natChars n = [Nat.digitChar n] := by
  rw [natChars, if_pos h]

theorem natChars_ge {n : Nat} (h : ¬ n < 10) :
    natChars n = natChars (n / 10) ++ [Nat.digitChar (n % 10)] := by
  rw [natChars, if_neg h]

theorem toDigitsCore_eq_natChars :
    ∀ (f n : Nat), n < f → Nat.toDigitsCore 10 f n [] = natChars n := by
  intro f
  induction f with
  | zero => intro n h; exact absurd h (Nat.not_lt_zero n)
  | succ f ih =>
    intro n hn
    by_cases h : n / 10 = 0
    · have h10 : n < 10 := by
        by_contra hge
        have h1 : 10 ≤ n := Nat.le_of_not_lt hge
        have h2 : 1 ≤ n / 10 := (Nat.le_div_iff_mul_le (by decide)).mpr (by omega)
        omega
      rw [natChars_lt h10]
      simp [Nat.toDigitsCore, h, Nat.mod_eq_of_lt h10]
    · have hge : 10 ≤ n := by
        by_contra hlt
        exact h (Nat.div_eq_of_lt (Nat.lt_of_not_le hlt))
      have hdiv : n / 10 < n := Nat.div_lt_self (by omega) (by decide)
      have hlt : n / 10 < f := by omega
      have hstep : Nat.toDigitsCore 10 (f + 1) n [] =
          Nat.toDigitsCore 10 f (n / 10) [Nat.digitChar (n % 10)] := by
        simp [Nat.toDigitsCore, h]
      rw [hstep, toDigitsCore_append10, ih _ hlt, ← natChars_ge (by omega)]

theorem repr_data (n : Nat) : (Nat.repr n).data = natChars n := by
  show (Nat.toDigitsCore 10 (n + 1) n []).asString.data = natChars n
  have h := toDigitsCore_eq_natChars (n + 1) n (Nat.lt_succ_self n)
  rw [show (Nat.toDigitsCore 10 (n + 1) n []).asString.data =
    Nat.toDigitsCore 10 (n + 1) n [] from rfl, h]

theorem digitChar_inj_lt :
    ∀ m, m < 10 → ∀ n, n < 10 → Nat.digitChar m = Nat.digitChar n → m = n := by
  decide

theorem natChars_ne_nil (n : Nat) : natChars n ≠ [] := by
  rw [natChars]
  split
  · simp
  · simp

theorem natChars_inj : ∀ m n : Nat, natChars m = natChars n → m = n := by
  intro m
  induction m using Nat.strong_induction_on with
  | _ m ih =>
    intro n h
    by_cases hm : m < 10 <;> by_cases hn : n < 10
    · rw [natChars_lt hm, natChars_lt hn] at h
      exact digitChar_inj_lt m hm n hn (by simpa using h)
    · exfalso
      rw [natChars_lt hm, natChars_ge hn] at h
      have hlen := congrArg List.length h
      simp at hlen
      exact natChars_ne_nil (n / 10) (by simpa using hlen)
    · exfalso
      rw [natChars_ge hm, natChars_lt hn] at h
      have hlen := congrArg List.length h
      simp at hlen
      exact natChars_ne_nil (m / 10) (by simpa using hlen)
    · rw [natChars_ge hm, natChars_ge hn] at h
      obtain ⟨h1, h2⟩ := List.append_inj' h rfl
      have hdiv : m / 10 = n / 10 :=
        ih (m / 10) (Nat.div_lt_self (by omega) (by decide)) (n / 10) h1
      have hmod : m % 10 = n % 10 :=
        digitChar_inj_lt _ (Nat.mod_lt _ (by decide)) _ (Nat.mod_lt _ (by decide))
          (by simpa using h2)
      omega

theorem repr_inj {m n : Nat} (h : Nat.repr m = Nat.repr n) : m = n :=
  natChars_inj m n (by rw [← repr_data, ← repr_data, h])

/-- `f"{title} - {date_str}{path.suffix}"`. -/
def baseFilename (title dateStr suffix : String) : String :=
  title ++ " - " ++ dateStr ++ suffix

/-- `f"{title} - {date_str} ({counter}){path.suffix}"`. -/
def counterFilename (title dateStr suffix : String) (k : Nat) : String :=
  title ++ " - " ++ dateStr ++ " (" ++ Nat.repr k ++ ")" ++ suffix

theorem counterFilename_inj {t d s : String} {j k : Nat}
    (h : counterFilename t d s j = counterFilename t d s k) : j = k := by
  have h' := congrArg String.data h
  simp only [counterFilename, String.data_append] at h'
  have h1 := List.append_inj_left' h' rfl
  have h2 := List.append_inj_left' h1 rfl
  have h3 := List.append_inj_right h2 rfl
  exact repr_inj (String.ext h3)

theorem counterFilename_exists_free (taken : List String) (t d s : String) :
    ∃ k, 0 < k ∧ counterFilename t d s k ∉ taken := by
  by_contra hall
  push_neg at hall
  have hinj : Function.Injective fun i : Nat => counterFilename t d s (i + 1) := by
    intro a b hab
    have := counterFilename_inj hab
    omega
  have hnd : ((List.range (taken.length + 1)).map
      fun i => counterFilename t d s (i + 1)).Nodup :=
    (List.nodup_range _).map hinj
  have hsub : ((List.range (taken.length + 1)).map
      fun i => counterFilename t d s (i + 1)).toFinset ⊆ taken.toFinset := by
    intro x hx
    rw [List.mem_toFinset] at hx ⊢
    obtain ⟨i, _, rfl⟩ := List.mem_map.mp hx
    exact hall (i + 1) (Nat.succ_pos i)
  have h1 := List.toFinset_card_of_nodup hnd
  have h3 := Finset.card_le_card hsub
  have h4 := List.toFinset_card_le (l := taken)
  simp only [h1, List.length_map, List.length_range] at h3
  omega

/-- The collision loop of `FilesystemAdapter.store`: return the base
name if it is free, otherwise the first `"<base> (k)"`, `k = 1, 2, …`,
that is free (the `while dest.exists()` loop). -/
def storeFilename (taken : List String) (title dateStr suffix : String) : String :=
  if baseFilename title dateStr suffix ∈ taken then
    counterFilename title dateStr suffix
      (Nat.find (counterFilename_exists_free taken title dateStr suffix))
  else baseFilename title dateStr suffix

/-- `f"{doc_date.month:02d}"`. -/
def pad2 (n : Nat) : String :=
  if n < 10 then "0" ++ Nat.repr n else Nat.repr n

/-- The four-digit zero-padded year of `date.isoformat()`. -/
def pad4 (n : Nat) : String :=
  if n < 10 then "000" ++ Nat.repr n
  else if n < 100 then "00" ++ Nat.repr n
  else if n < 1000 then "0" ++ Nat.repr n
  else Nat.repr n

/-- `doc_date.isoformat()`. -/
def isoDate (d : DateD) : String :=
  pad4 d.year ++ "-" ++ pad2 d.month ++ "-" ++ pad2 d.day

/-- `FilesystemAdapter.store`, reduced to its naming decision: the
destination directory `base/yyyy/mm/` and the collision-free filename,
from the record's own date (falling back to today) and its sanitized
title.  `taken` is the set of filenames already present in that
directory. -/
def store_dest (taken : List String) (info : DocumentInfo) (today : DateD)
    (suffix : String) : List String × String :=
  let docDate := info.date.getD today
  ([Nat.repr docDate.year, pad2 docDate.month],
   storeFilename taken (sanitize_filename info.title) (isoDate docDate) suffix)

theorem counterFilename_one (t d s : String) :
    counterFilename t d s 1 = t ++ " - " ++ d ++ " (1)" ++ s := by
  apply String.ext
  simp only [counterFilename, String.data_append, List.append_assoc]
  have h1 : (Nat.repr 1).data = ['1'] := rfl
  simp [h1]

theorem counterFilename_one_ne_base (t d s : String) :
    counterFilename t d s 1 ≠ baseFilename t d s := by
  intro h
  have hlen := congrArg String.length h
  simp only [counterFilename, baseFilename, String.length_append] at hlen
  have h1 : (" (" : String).length = 2 := rfl
  have h2 : ((")" : String)).length = 1 := rfl
  have h3 : (Nat.repr 1).length = 1 := rfl
  omega

theorem store_dest_snd (taken : List String) (info : DocumentInfo)
    (today : DateD) (suffix : String) :
    (store_dest taken info today suffix).2 =
      storeFilename taken (sanitize_filename info.title)
        (isoDate (info.date.getD today)) suffix := rfl

set_option maxHeartbeats 1600000

/-- C6: the archive namer resolves collisions by appending `" (1)"`,
`" (2)"`, … before the extension until a free name is found: the chosen
name is never taken, is the base name whenever that is free, and
otherwise is the counter variant with the least positive counter whose
name is free (every smaller positive counter being taken).  In
particular, storing a second document with identical sanitized title and
date into a directory where the first produced
`"<title> - <date><ext>"` yields the distinct name
`"<title> - <date> (1)<ext>"`. -/
theorem c6_collision_naming :
    (∀ (taken : List String) (t d s : String),
       storeFilename taken t d s ∉ taken
       ∧ (baseFilename t d s ∉ taken → storeFilename taken t d s = baseFilename t d s)
       ∧ (baseFilename t d s ∈ taken →
           ∃ k, 0 < k ∧ storeFilename taken t d s = counterFilename t d s k
             ∧ counterFilename t d s k ∉ taken
             ∧ ∀ j, 0 < j → j < k → counterFilename t d s j ∈ taken))
    ∧ (∀ (info : DocumentInfo) (today : DateD) (suffix : String),
        (store_dest [] info today suffix).2 =
          baseFilename (sanitize_filename info.title)
            (isoDate (info.date.getD today)) suffix
        ∧ (store_dest [(store_dest [] info today suffix).2] info today suffix).2 =
            sanitize_filename info.title ++ " - "
              ++ isoDate (info.date.getD today) ++ " (1)" ++ suffix
        ∧ (store_dest [(store_dest [] info today suffix).2] info today suffix).2 ≠
            (store_dest [] info today suffix).2) := by
  have hgen : ∀ (taken : List String) (t d s : String),
      storeFilename taken t d s ∉ taken
      ∧ (baseFilename t d s ∉ taken → storeFilename taken t d s = baseFilename t d s)
      ∧ (baseFilename t d s ∈ taken →
          ∃ k, 0 < k ∧ storeFilename taken t d s = counterFilename t d s k
            ∧ counterFilename t d s k ∉ taken
            ∧ ∀ j, 0 < j → j < k → counterFilename t d s j ∈ taken) := by
    intro taken t d s
    refine ⟨?_, ?_, ?_⟩
    · unfold storeFilename
      split
      · exact (Nat.find_spec (counterFilename_exists_free taken t d s)).2
      · assumption
    · intro hb
      rw [storeFilename, if_neg hb]
    · intro hb
      refine ⟨Nat.find (counterFilename_exists_free taken t d s),
        (Nat.find_spec (counterFilename_exists_free taken t d s)).1,
        by rw [storeFilename, if_pos hb],
        (Nat.find_spec (counterFilename_exists_free taken t d s)).2, ?_⟩
      intro j hj0 hjk
      by_contra hmem
      exact Nat.find_min (counterFilename_exists_free taken t d s) hjk ⟨hj0, hmem⟩
  refine ⟨hgen, ?_⟩
  intro info today suffix
  have h1 : (store_dest [] info today suffix).2 =
      baseFilename (sanitize_filename info.title)
        (isoDate (info.date.getD today)) suffix := by
    rw [store_dest_snd, storeFilename, if_neg (List.not_mem_nil _)]
  refine ⟨h1, ?_, ?_⟩
  · rw [store_dest_snd, h1]
    have hfree : ∃ k, 0 < k ∧ counterFilename (sanitize_filename info.title)
        (isoDate (info.date.getD today)) suffix k ∉
          [baseFilename (sanitize_filename info.title)
            (isoDate (info.date.getD today)) suffix] :=
      counterFilename_exists_free _ _ _ _
    rw [storeFilename, if_pos (List.mem_singleton_self _)]
    have hone : Nat.find hfree = 1 := by
      rw [Nat.find_eq_iff]
      refine ⟨⟨Nat.one_pos, ?_⟩, ?_⟩
      · intro hmem
        rw [List.mem_singleton] at hmem
        exact counterFilename_one_ne_base _ _ _ hmem
      · intro m hm
        rintro ⟨hm0, -⟩
        omega
    rw [hone, counterFilename_one]
  · rw [store_dest_snd, h1]
    rw [storeFilename, if_pos (List.mem_singleton_self _)]
    intro hcontra
    have := (Nat.find_spec (counterFilename_exists_free
      [baseFilename (sanitize_filename info.title)
        (isoDate (info.date.getD today)) suffix]
      (sanitize_filename info.title) (isoDate (info.date.getD today)) suffix)).2
    rw [hcontra] at this
    exact this (List.mem_singleton_self _)

/-- Concrete instantiation of the collision namer: with title
`"Invoice"` and date 2024-03-14, the first store takes the base name and
the second differs from it only by a `" (1)"` suffix. -/
theorem c6_witness :
    (store_dest [] demoInfo ⟨2025, 1, 2⟩ ".pdf").2 = "Invoice - 2024-03-14.pdf"
    ∧ (store_dest [(store_dest [] demoInfo ⟨2025, 1, 2⟩ ".pdf").2]
        demoInfo ⟨2025, 1, 2⟩ ".pdf").2 = "Invoice - 2024-03-14 (1).pdf" := by
  have h := (c6_collision_naming.2 demoInfo ⟨2025, 1, 2⟩ ".pdf")
  constructor
  · rw [h.1]
    decide
  · rw [h.2.1]
    decide

end Papertrail
